import Mathlib

/-!
# Vehicle rental system: a shallow embedding of `VEHICLE_RENTAL_SYSTEM.cpp`

The C++ program keeps a vector of users, a vector of vehicles and a pointer to
the user who is logged in. Vehicles are booked and returned by id, and a return
is charged through the strategy object the vehicle was built with.

Conventions of the embedding.

* A method of `RentalSystem` becomes a function from the object's state to the
  state after the call, paired with what the call writes to `cout`.
* A value that a method reads from `cin` before it touches the state is a
  parameter of the function (for `bookVehicle` the id that `inputInt` returned,
  for `signUp` the two strings).
* `returnVehicle` reads the usage *after* it has changed the vehicle, so there
  the successive results of `cin >> val` at the usage prompt are a list that the
  embedded `inputInt` consumes.
* `int` values are `Int`: the program only compares them, so no machine
  arithmetic is involved. A charge is the `double` product of an `int` below
  `2 ^ 31` and `100.0` or `10.0`; such a product is an integer below `2 ^ 53`,
  which a `double` holds exactly, so the value of `charge` is that integer.
* What `cout << charge` writes is not that integer in full: the stream is in
  its default state, so the value is converted with six significant digits.
  `formatDouble` is that conversion and `Output.render` the text of a write.
* For the order of the writes and the state changes inside `returnVehicle`
  there is `returnVehicleRun`, which pairs every write with the state of the
  object at the time of the write.
* `currentUser`, a pointer into the `users` vector, is the index it points at.
-/

namespace VehicleRental

/-! ## Strategy pattern -/

/-- The two concrete classes that derive from `ChargeStrategy`. -/
inductive ChargeStrategy
  | PerHourStrategy
  | PerKmStrategy
  deriving DecidableEq, Repr

/-- `PerHourStrategy::calculateCharge` returns `hours * 100.0` and
`PerKmStrategy::calculateCharge` returns `km * 10.0`. -/
def ChargeStrategy.calculateCharge : ChargeStrategy → Int → Int
  | .PerHourStrategy, hours => hours * 100
  | .PerKmStrategy, km => km * 10

/-! ## Users -/

/-- Class `User`: its two private string fields. -/
structure User where
  username : String
  password : String
  deriving DecidableEq, Repr

/-- The constructor `User::User(uname, pwd)`: it throws `invalid_argument` with
the message below when a field is empty, otherwise it stores both fields. -/
def User.create (uname pwd : String) : Except String User :=
  if uname.isEmpty || pwd.isEmpty then
    .error "Username or password cannot be empty."
  else
    .ok { username := uname, password := pwd }

/-- `User::getUsername`. -/
def User.getUsername (u : User) : String := u.username

/-- `User::login`: `username == uname && password == pwd`. -/
def User.login (u : User) (uname pwd : String) : Bool :=
  u.username == uname && u.password == pwd

/-! ## Vehicles -/

/-- Class `Vehicle`: id, type name, availability flag and the owned strategy. -/
structure Vehicle where
  id : Int
  type : String
  available : Bool
  strategy : ChargeStrategy
  deriving DecidableEq, Repr

/-- The constructor `Vehicle::Vehicle(id, type, strat)`: `available` starts
as `true`. -/
def Vehicle.create (id : Int) (type : String) (strat : ChargeStrategy) : Vehicle :=
  { id := id, type := type, available := true, strategy := strat }

/-- `Car::Car(id)` is `Vehicle(id, "Car", make_unique<PerHourStrategy>())`. -/
def Car (id : Int) : Vehicle := Vehicle.create id "Car" .PerHourStrategy

/-- `Motorcycle::Motorcycle(id)` is
`Vehicle(id, "Motorcycle", make_unique<PerKmStrategy>())`. -/
def Motorcycle (id : Int) : Vehicle := Vehicle.create id "Motorcycle" .PerKmStrategy

/-- `Vehicle::getId`. -/
def Vehicle.getId (v : Vehicle) : Int := v.id

/-- `Vehicle::isAvailable`. -/
def Vehicle.isAvailable (v : Vehicle) : Bool := v.available

/-- `Vehicle::setAvailable`. -/
def Vehicle.setAvailable (v : Vehicle) (status : Bool) : Vehicle :=
  { v with available := status }

/-- `Vehicle::calculateCharge` forwards to the strategy. -/
def Vehicle.calculateCharge (v : Vehicle) (input : Int) : Int :=
  v.strategy.calculateCharge input

/-- `Vehicle::display`: the line written to `cout`. -/
def Vehicle.display (v : Vehicle) : String :=
  "Vehicle ID: " ++ toString v.id ++ ", Type: " ++ v.type
    ++ ", Available: " ++ (if v.available then "Yes" else "No") ++ "\n"

/-- A vehicle built by `Car(id)`, whatever its availability flag is now. -/
def Vehicle.isCar (v : Vehicle) : Prop := v.setAvailable true = Car v.id

/-- A vehicle built by `Motorcycle(id)`, whatever its availability flag is now. -/
def Vehicle.isMotorcycle (v : Vehicle) : Prop := v.setAvailable true = Motorcycle v.id

instance (v : Vehicle) : Decidable v.isCar := by
  unfold Vehicle.isCar; exact inferInstance

instance (v : Vehicle) : Decidable v.isMotorcycle := by
  unfold Vehicle.isMotorcycle; exact inferInstance

/-! ## Console -/

/-- A write to `cout`. `text s` writes the characters `s`. `charge c` is the
statement `cout << "Vehicle returned. Charge: $" << charge << endl` executed
while the `double` variable `charge` holds the value `c`; the characters it
writes are given by `Output.render`. -/
inductive Output
  | text (s : String)
  | charge (c : Int)
  deriving DecidableEq, Repr

/-- The decimal exponent of `n`, one less than its number of decimal digits,
found by dividing by ten at most `fuel` times. -/
def decimalExponentAux : Nat → Nat → Nat
  | 0, _ => 0
  | fuel + 1, n => if n < 10 then 0 else decimalExponentAux fuel (n / 10) + 1

/-- The decimal exponent of `n`: `10 ^ e ≤ n < 10 ^ (e + 1)` for `n ≥ 1`. -/
def decimalExponent (n : Nat) : Nat := decimalExponentAux n n

/-- The value `n` rounded to six significant digits, as the conversion of a
`double` with precision 6 does it: the six-digit mantissa and the decimal
exponent. The unit of the last kept digit is `10 ^ (e - 5)`; the digits below
it are rounded to the nearest mantissa, a tie going to the even one (the
conversion of the C library in the default rounding mode); a mantissa that
rounds up to `10 ^ 6` becomes `10 ^ 5` with the exponent raised by one. -/
def roundSix (n : Nat) : Nat × Nat :=
  if 10 ^ (decimalExponent n - 5) < 2 * (n % 10 ^ (decimalExponent n - 5)) ∨
      (2 * (n % 10 ^ (decimalExponent n - 5)) = 10 ^ (decimalExponent n - 5) ∧
        n / 10 ^ (decimalExponent n - 5) % 2 = 1) then
    if n / 10 ^ (decimalExponent n - 5) + 1 = 10 ^ 6 then
      (10 ^ 5, decimalExponent n + 1)
    else
      (n / 10 ^ (decimalExponent n - 5) + 1, decimalExponent n)
  else
    (n / 10 ^ (decimalExponent n - 5), decimalExponent n)

/-- The value `n` as `formatNat` shows it: `n` itself below `10 ^ 6`, otherwise
the mantissa of `roundSix` times `10 ^ (e - 5)`. -/
def shownNat (n : Nat) : Nat :=
  if n < 10 ^ 6 then n else (roundSix n).1 * 10 ^ ((roundSix n).2 - 5)

/-- The last `k` decimal digits of `f`, leading zeros included. -/
def fixedDigits : Nat → Nat → List Char
  | 0, _ => []
  | k + 1, f => fixedDigits k (f / 10) ++ [Nat.digitChar (f % 10)]

/-- The fraction of a mantissa: the `k` digits of `f` after the decimal point
with the trailing zeros removed, and no point at all when nothing is left. -/
def fractionText : Nat → Nat → String
  | 0, _ => ""
  | k + 1, f =>
    if f % 10 = 0 then fractionText k (f / 10) else "." ++ String.mk (fixedDigits (k + 1) f)

/-- The exponent of the scientific form: at least two digits. -/
def exponentText (e : Nat) : String :=
  if e < 10 then "0" ++ toString e else toString e

/-- The conversion of a non-negative integral `double` by `cout << charge` in
the stream's default state (general form, precision 6): below `10 ^ 6` all
digits of the integer, from `10 ^ 6` on the scientific form of the value
rounded to six significant digits. -/
def formatNat (n : Nat) : String :=
  if n < 10 ^ 6 then
    toString n
  else
    String.singleton (Nat.digitChar ((roundSix n).1 / 10 ^ 5))
      ++ fractionText 5 ((roundSix n).1 % 10 ^ 5) ++ "e+" ++ exponentText (roundSix n).2

/-- The conversion of an integral `double` of either sign. -/
def formatDouble : Int → String
  | .ofNat n => formatNat n
  | .negSucc n => "-" ++ formatNat (n + 1)

/-- The characters of one write. -/
def Output.render : Output → String
  | .text s => s
  | .charge c => "Vehicle returned. Charge: $" ++ formatDouble c ++ "\n"

/-- The characters of a sequence of writes, as they appear on `cout`. -/
def written : List Output → String
  | [] => ""
  | o :: os => o.render ++ written os

/-- `RentalSystem::inputInt`. The list holds the successive results of
`cin >> val`: `none` when the extraction fails, `some val` otherwise. A failed
extraction and a negative value are both answered with
`"Invalid input. Try again.\n"` and the loop goes round again; the first other
value is returned, together with everything written on the way. When the list
runs out (end of input, where every extraction fails) the loop never returns:
the result is `none`. -/
def inputInt (prompt : String) : List (Option Int) → Option (Int × List Output)
  | [] => none
  | none :: rest =>
    (inputInt prompt rest).map fun r =>
      (r.1, .text prompt :: .text "Invalid input. Try again.\n" :: r.2)
  | some val :: rest =>
    if val < 0 then
      (inputInt prompt rest).map fun r =>
        (r.1, .text prompt :: .text "Invalid input. Try again.\n" :: r.2)
    else
      some (val, [.text prompt])

/-! ## The rental system -/

/-- Class `RentalSystem`: its three data members. -/
structure RentalSystem where
  users : List User
  vehicles : List Vehicle
  currentUser : Option Nat
  deriving DecidableEq, Repr

/-- The state of `RentalSystem app;` in `main`: no users, no vehicles, nobody
logged in. -/
def RentalSystem.init : RentalSystem :=
  { users := [], vehicles := [], currentUser := none }

/-- A system that holds the given vehicles, with no users and nobody logged
in. -/
def RentalSystem.ofFleet (vs : List Vehicle) : RentalSystem :=
  { users := [], vehicles := vs, currentUser := none }

/-- `RentalSystem::signUp`, given the two strings read from `cin`. The
`emplace_back` either appends the user or, when the constructor throws, leaves
the vector alone and the handler prints the exception's message. -/
def signUp (s : RentalSystem) (uname pwd : String) : RentalSystem × List Output :=
  match User.create uname pwd with
  | .ok u =>
    ({ s with users := s.users ++ [u] },
      [.text "Enter username: ", .text "Enter password: ", .text "Signup successful.\n"])
  | .error what =>
    (s, [.text "Enter username: ", .text "Enter password: ",
      .text ("Error: " ++ what ++ "\n")])

/-- The `for` loop of `RentalSystem::login` over the users from position `k`
on: the position of the first user whose `login` accepts the pair. -/
def loginLoop (uname pwd : String) : List User → Nat → Option Nat
  | [], _ => none
  | u :: us, k => if u.login uname pwd then some k else loginLoop uname pwd us (k + 1)

/-- `RentalSystem::login`, given the two strings read from `cin`. -/
def login (s : RentalSystem) (uname pwd : String) : RentalSystem × List Output :=
  match loginLoop uname pwd s.users 0 with
  | some k =>
    ({ s with currentUser := some k },
      [.text "Username: ", .text "Password: ", .text "Login successful!\n"])
  | none =>
    (s, [.text "Username: ", .text "Password: ", .text "Invalid credentials.\n"])

/-- `RentalSystem::addVehicle`, given the id returned by `inputInt` and the
choice read from `cin`. -/
def addVehicle (s : RentalSystem) (id choice : Int) : RentalSystem × List Output :=
  if choice = 1 then
    ({ s with vehicles := s.vehicles ++ [Car id] }, [.text "1. Car\n2. Motorcycle\nChoice: "])
  else if choice = 2 then
    ({ s with vehicles := s.vehicles ++ [Motorcycle id] },
      [.text "1. Car\n2. Motorcycle\nChoice: "])
  else
    (s, [.text "1. Car\n2. Motorcycle\nChoice: ", .text "Invalid type.\n"])

/-- The `for` loop of `RentalSystem::viewVehicles`. -/
def viewLoop : List Vehicle → List Output
  | [] => []
  | v :: vs => .text v.display :: viewLoop vs

/-- `RentalSystem::viewVehicles`. -/
def viewVehicles (s : RentalSystem) : RentalSystem × List Output :=
  (s, viewLoop s.vehicles)

/-- The `for` loop of `RentalSystem::bookVehicle`: the first vehicle with the
id that is available gets `setAvailable(false)` and the loop is left; `none`
when the loop runs to its end. -/
def bookLoop (id : Int) : List Vehicle → Option (List Vehicle)
  | [] => none
  | v :: vs =>
    if v.getId = id ∧ v.isAvailable = true then
      some (v.setAvailable false :: vs)
    else
      (bookLoop id vs).map fun vs' => v :: vs'

/-- `RentalSystem::bookVehicle`, given the id returned by `inputInt`. -/
def bookVehicle (s : RentalSystem) (id : Int) : RentalSystem × List Output :=
  match bookLoop id s.vehicles with
  | some vs' => ({ s with vehicles := vs' }, [.text "Vehicle booked successfully.\n"])
  | none => (s, [.text "Vehicle not available.\n"])

/-- The `for` loop of `RentalSystem::returnVehicle` up to and including
`v->setAvailable(true)`: the first vehicle with the id that is not available is
found and made available. The result is that vehicle as it was found and the
vehicles after the change; `none` when the loop runs to its end. -/
def returnLoop (id : Int) : List Vehicle → Option (Vehicle × List Vehicle)
  | [] => none
  | v :: vs =>
    if v.getId = id ∧ v.isAvailable = false then
      some (v, v.setAvailable true :: vs)
    else
      (returnLoop id vs).map fun r => (r.1, v :: r.2)

/-- `RentalSystem::returnVehicle`, given the id returned by the first `inputInt`
and the extractions that the second `inputInt` (the usage prompt) will see. The
usage is read once the vehicle has been made available; the charge is computed
from the value `inputInt` returns and written by the statement of line 183,
the write `Output.charge` whose characters `Output.render` gives. The result is
`none` when that `inputInt` never returns. -/
def returnVehicle (s : RentalSystem) (id : Int) (usageIn : List (Option Int)) :
    Option (RentalSystem × List Output) :=
  match returnLoop id s.vehicles with
  | some (v, vs') =>
    match inputInt "Enter hours/km used: " usageIn with
    | some (usage, log) =>
      some ({ s with vehicles := vs' }, log ++ [.charge (v.calculateCharge usage)])
    | none => none
  | none => some (s, [.text "Invalid vehicle or already returned.\n"])

/-- `RentalSystem::inputInt` with every write paired with the state of the
object at the time of the write. `inputInt` is a member function that leaves
the object alone, so that state is the `s` it is called in. The second
component is the value returned, `none` when the loop never returns; the writes
of the endless loop at the end of the input are left out. -/
def inputIntRun (prompt : String) (s : RentalSystem) :
    List (Option Int) → List (Output × RentalSystem) × Option Int
  | [] => ([], none)
  | none :: rest =>
    ((.text prompt, s) :: (.text "Invalid input. Try again.\n", s)
      :: (inputIntRun prompt s rest).1, (inputIntRun prompt s rest).2)
  | some val :: rest =>
    if val < 0 then
      ((.text prompt, s) :: (.text "Invalid input. Try again.\n", s)
        :: (inputIntRun prompt s rest).1, (inputIntRun prompt s rest).2)
    else
      ([(.text prompt, s)], some val)

/-- `RentalSystem::returnVehicle` with every write paired with the state of
the object at the time of the write, in program order. The loop (lines 178 to
180) ends with `v->setAvailable(true)`; `inputInt` (line 181) is called after
it, so it runs in the state that already holds the changed vehicles, and so
does the write of the charge (line 183). The second component is the state
when the call returns, `none` when it never returns. -/
def returnVehicleRun (s : RentalSystem) (id : Int) (usageIn : List (Option Int)) :
    List (Output × RentalSystem) × Option RentalSystem :=
  match returnLoop id s.vehicles with
  | some (v, vs') =>
    match inputIntRun "Enter hours/km used: " { s with vehicles := vs' } usageIn with
    | (log, some usage) =>
      (log ++ [(.charge (v.calculateCharge usage), { s with vehicles := vs' })],
        some { s with vehicles := vs' })
    | (log, none) => (log, none)
  | none => ([(.text "Invalid vehicle or already returned.\n", s)], some s)

/-- The number that a list of decimal digit characters denotes. -/
def digitsValue (l : List Char) : Nat :=
  l.foldl (fun a c => a * 10 + (c.toNat - 48)) 0

/-- A decimal digit character. -/
def IsDigitChar (c : Char) : Prop := ∃ d, d < 10 ∧ c = Nat.digitChar d

/-- The number that a written numeral denotes, for the two forms that
`formatNat` produces: the digits of an integer, or a mantissa with an optional
fraction followed by `e+` and the exponent. The digits of the mantissa, the
decimal point left out, are read as an integer and scaled by ten to the
exponent less the number of fraction digits. -/
def numeralValue (s : String) : Nat :=
  digitsValue
      ((s.data.takeWhile (· ≠ 'e')).takeWhile (· ≠ '.') ++
        (((s.data.takeWhile (· ≠ 'e')).dropWhile (· ≠ '.')).drop 1)) *
    10 ^ (digitsValue ((s.data.dropWhile (· ≠ 'e')).drop 2) -
      (((s.data.takeWhile (· ≠ 'e')).dropWhile (· ≠ '.')).drop 1).length)

/-! ## Vocabulary of the specification -/

/-- The test of the loop in `bookVehicle`, as a predicate on vehicles. -/
def Bookable (id : Int) (v : Vehicle) : Prop := v.getId = id ∧ v.isAvailable = true

/-- The test of the loop in `returnVehicle`, as a predicate on vehicles. -/
def Returnable (id : Int) (v : Vehicle) : Prop := v.getId = id ∧ v.isAvailable = false

instance (id : Int) : DecidablePred (Bookable id) := fun v => by
  unfold Bookable; exact inferInstance

instance (id : Int) : DecidablePred (Returnable id) := fun v => by
  unfold Returnable; exact inferInstance

/-- Vehicle `v` stands at position `k` of `vs`, satisfies `p`, and no vehicle
before position `k` satisfies `p`: it is the first such vehicle in insertion
order. -/
def FirstAt (p : Vehicle → Prop) (vs : List Vehicle) (k : Nat) (v : Vehicle) : Prop :=
  vs[k]? = some v ∧ p v ∧ ∀ w ∈ vs.take k, ¬ p w

instance (p : Vehicle → Prop) [DecidablePred p] (vs : List Vehicle) (k : Nat) (v : Vehicle) :
    Decidable (FirstAt p vs k v) := by
  unfold FirstAt; exact inferInstance

/-- The states the three fleet operations can produce from a system that has
no vehicles yet. -/
inductive FleetReachable : RentalSystem → Prop
  | start (s : RentalSystem) : s.vehicles = [] → FleetReachable s
  | add (s : RentalSystem) (id choice : Int) :
      FleetReachable s → FleetReachable (addVehicle s id choice).1
  | book (s : RentalSystem) (id : Int) :
      FleetReachable s → FleetReachable (bookVehicle s id).1
  | ret (s : RentalSystem) (id : Int) (usageIn : List (Option Int))
      (r : RentalSystem × List Output) :
      FleetReachable s → returnVehicle s id usageIn = some r → FleetReachable r.1

/-- The states that `signUp` calls can produce from a system that has no users
yet. -/
inductive DirectoryReachable : RentalSystem → Prop
  | start (s : RentalSystem) : s.users = [] → DirectoryReachable s
  | signUp (s : RentalSystem) (uname pwd : String) :
      DirectoryReachable s → DirectoryReachable (signUp s uname pwd).1

/-- The state after `signUp` and `login` with the pair `("ann", "pw")` on a
fresh system: the menu is open and the fleet is empty. -/
def RentalSystem.loggedIn : RentalSystem :=
  (login (signUp RentalSystem.init "ann" "pw").1 "ann" "pw").1

/-! ## Accounts -/

theorem User.create_of_empty (uname pwd : String) (h : uname = "" ∨ pwd = "") :
    User.create uname pwd = .error "Username or password cannot be empty." := by
  have hb : (uname.isEmpty || pwd.isEmpty) = true := by
    rcases h with h | h
    · simp [h, (String.isEmpty_iff "").2 rfl]
    · simp [h, (String.isEmpty_iff "").2 rfl]
  simp [User.create, hb]

theorem User.create_of_nonempty (uname pwd : String) (hu : uname ≠ "") (hp : pwd ≠ "") :
    User.create uname pwd = .ok { username := uname, password := pwd } := by
  have h1 : uname.isEmpty = false := by
    rw [Bool.eq_false_iff]; exact fun h => hu ((String.isEmpty_iff _).1 h)
  have h2 : pwd.isEmpty = false := by
    rw [Bool.eq_false_iff]; exact fun h => hp ((String.isEmpty_iff _).1 h)
  simp [User.create, h1, h2]

theorem User.login_iff (u : User) (uname pwd : String) :
    u.login uname pwd = true ↔ u.username = uname ∧ u.password = pwd := by
  simp [User.login]

theorem signUp_rejects (s : RentalSystem) (uname pwd : String)
    (h : uname = "" ∨ pwd = "") :
    signUp s uname pwd =
      (s, [.text "Enter username: ", .text "Enter password: ",
        .text "Error: Username or password cannot be empty.\n"]) := by
  simp only [signUp, User.create_of_empty uname pwd h]
  rfl

/-- C5. A `signUp` with an empty username or an empty password ends in the
handler: it prints the constructor's error message and leaves the whole state,
in particular the list of users, as it was. -/
theorem signUp_empty_field (s : RentalSystem) (uname pwd : String)
    (h : uname = "" ∨ pwd = "") :
    signUp s uname pwd =
        (s, [.text "Enter username: ", .text "Enter password: ",
          .text "Error: Username or password cannot be empty.\n"]) ∧
      (signUp s uname pwd).1.users = s.users :=
  ⟨signUp_rejects s uname pwd h, by rw [signUp_rejects s uname pwd h]⟩

/-- C5 at the two pairs the specification names, on a directory that already
holds one account. -/
theorem signUp_empty_field_witness :
    (signUp { users := [⟨"ann", "pw"⟩], vehicles := [], currentUser := none } "" "x").1.users
        = [⟨"ann", "pw"⟩] ∧
      (signUp { users := [⟨"ann", "pw"⟩], vehicles := [], currentUser := none } "x" "").1.users
        = [⟨"ann", "pw"⟩] :=
  ⟨(signUp_empty_field _ "" "x" (Or.inl rfl)).2, (signUp_empty_field _ "x" "" (Or.inr rfl)).2⟩

theorem signUp_of_nonempty (s : RentalSystem) (uname pwd : String)
    (hu : uname ≠ "") (hp : pwd ≠ "") :
    signUp s uname pwd =
      ({ s with users := s.users ++ [{ username := uname, password := pwd }] },
        [.text "Enter username: ", .text "Enter password: ", .text "Signup successful.\n"]) := by
  simp only [signUp, User.create_of_nonempty uname pwd hu hp]

theorem signUp_users_length_of_eq (s : RentalSystem) (uname pwd : String)
    (h : (signUp s uname pwd).1 = s) : uname = "" ∨ pwd = "" := by
  by_contra hne
  push_neg at hne
  rw [signUp_of_nonempty s uname pwd hne.1 hne.2] at h
  have hl := congrArg (fun t => t.users.length) h
  simp at hl

theorem DirectoryReachable.fields_nonempty {s : RentalSystem} (hs : DirectoryReachable s) :
    ∀ u ∈ s.users, u.username ≠ "" ∧ u.password ≠ "" := by
  induction hs with
  | start s h => intro u hu; simp [h] at hu
  | signUp s uname pwd _ ih =>
    by_cases he : uname = "" ∨ pwd = ""
    · rw [(signUp_rejects s uname pwd he)]
      exact ih
    · push_neg at he
      rw [signUp_of_nonempty s uname pwd he.1 he.2]
      intro u hu
      simp only [List.mem_append, List.mem_singleton] at hu
      rcases hu with hu | hu
      · exact ih u hu
      · subst hu; exact he

/-- C6, the counterexample. Two `signUp` calls with the username `"ann"` on the
empty directory both report success, and the directory then stores two users
named `"ann"`: the usernames are not unique. -/
theorem signUp_duplicate_username_stored :
    DirectoryReachable (signUp (signUp RentalSystem.init "ann" "pw1").1 "ann" "pw2").1 ∧
      (signUp (signUp RentalSystem.init "ann" "pw1").1 "ann" "pw2").2 =
        [.text "Enter username: ", .text "Enter password: ", .text "Signup successful.\n"] ∧
      (signUp (signUp RentalSystem.init "ann" "pw1").1 "ann" "pw2").1.users =
        [⟨"ann", "pw1"⟩, ⟨"ann", "pw2"⟩] ∧
      ¬ ((signUp (signUp RentalSystem.init "ann" "pw1").1 "ann" "pw2").1.users.map
          User.getUsername).Nodup :=
  ⟨.signUp _ _ _ (.signUp _ _ _ (.start _ rfl)), by decide, by decide, by decide⟩

/-- C6, as amended. In every directory reachable from the empty one by `signUp`
calls each stored user has a non-empty username and a non-empty password. A
`signUp` with two non-empty fields reports success and appends the account at
the end, whether or not the username is already stored; a `signUp` leaves the
state as it was only when a field is empty. -/
theorem signUp_appends_without_lookup (s : RentalSystem) (uname pwd : String)
    (hs : DirectoryReachable s) :
    (∀ u ∈ s.users, u.username ≠ "" ∧ u.password ≠ "") ∧
      (uname ≠ "" → pwd ≠ "" →
        signUp s uname pwd =
          ({ s with users := s.users ++ [{ username := uname, password := pwd }] },
            [.text "Enter username: ", .text "Enter password: ",
              .text "Signup successful.\n"])) ∧
      ((signUp s uname pwd).1 = s ↔ uname = "" ∨ pwd = "") :=
  ⟨hs.fields_nonempty, signUp_of_nonempty s uname pwd,
    signUp_users_length_of_eq s uname pwd,
    fun h => by rw [signUp_rejects s uname pwd h]⟩

/-- C6 as amended, on the directory that holds `"ann"`: a second `"ann"` is
appended. -/
theorem signUp_appends_without_lookup_witness :
    signUp (signUp RentalSystem.init "ann" "pw1").1 "ann" "pw2" =
      ({ (signUp RentalSystem.init "ann" "pw1").1 with
          users := (signUp RentalSystem.init "ann" "pw1").1.users ++ [⟨"ann", "pw2"⟩] },
        [.text "Enter username: ", .text "Enter password: ", .text "Signup successful.\n"]) :=
  (signUp_appends_without_lookup (signUp RentalSystem.init "ann" "pw1").1 "ann" "pw2"
    (.signUp _ _ _ (.start _ rfl))).2.1 (by decide) (by decide)

/-! ## Login -/

theorem loginLoop_eq_none (uname pwd : String) (us : List User) (k : Nat) :
    loginLoop uname pwd us k = none ↔
      ¬ ∃ u ∈ us, u.username = uname ∧ u.password = pwd := by
  induction us generalizing k with
  | nil => simp [loginLoop]
  | cons u us ih =>
    by_cases h : u.login uname pwd = true
    · have hu := (User.login_iff u uname pwd).1 h
      simp [loginLoop, h, hu]
    · have hu : ¬ (u.username = uname ∧ u.password = pwd) :=
        fun hc => h ((User.login_iff u uname pwd).2 hc)
      simp only [loginLoop, h, Bool.false_eq_true, if_false, ih (k + 1)]
      constructor
      · rintro hn ⟨w, hw, hm⟩
        rcases List.mem_cons.1 hw with rfl | hw
        · exact hu hm
        · exact hn ⟨w, hw, hm⟩
      · rintro hn ⟨w, hw, hm⟩
        exact hn ⟨w, List.mem_cons_of_mem _ hw, hm⟩

theorem loginLoop_eq_some (uname pwd : String) (us : List User) (k j : Nat)
    (h : loginLoop uname pwd us k = some j) :
    ∃ u, k ≤ j ∧ us[j - k]? = some u ∧ u.username = uname ∧ u.password = pwd ∧
      ∀ w ∈ us.take (j - k), ¬ (w.username = uname ∧ w.password = pwd) := by
  induction us generalizing k with
  | nil => simp [loginLoop] at h
  | cons u us ih =>
    by_cases hl : u.login uname pwd = true
    · simp only [loginLoop, hl, if_true, Option.some.injEq] at h
      subst h
      have hu := (User.login_iff u uname pwd).1 hl
      exact ⟨u, le_refl _, by simp, hu.1, hu.2, by simp⟩
    · simp only [loginLoop, hl, Bool.false_eq_true, if_false] at h
      obtain ⟨w, hle, hw, h1, h2, h3⟩ := ih (k + 1) h
      have hjk : j - k = (j - (k + 1)) + 1 := by omega
      refine ⟨w, by omega, ?_, h1, h2, ?_⟩
      · rw [hjk, List.getElem?_cons_succ]; exact hw
      · rw [hjk, List.take_succ_cons]
        intro x hx
        rcases List.mem_cons.1 hx with rfl | hx
        · exact fun hc => hl ((User.login_iff x uname pwd).2 hc)
        · exact h3 x hx

/-- C7. `login` reports success exactly when some stored user has that username
and that password, both compared as strings. When one has, the session is
bound to a position of the user list whose user carries exactly the two inputs
(the first such position) and nothing else changes; when none has, `login`
prints `"Invalid credentials.\n"` and the state, the session included, is as
it was, so a logged-out system stays logged out. -/
theorem login_exact_match (s : RentalSystem) (uname pwd : String) :
    ((login s uname pwd).2 =
          [.text "Username: ", .text "Password: ", .text "Login successful!\n"] ↔
        ∃ u ∈ s.users, u.username = uname ∧ u.password = pwd) ∧
      ((∃ u ∈ s.users, u.username = uname ∧ u.password = pwd) →
        ∃ k u, login s uname pwd =
            ({ s with currentUser := some k },
              [.text "Username: ", .text "Password: ", .text "Login successful!\n"]) ∧
          s.users[k]? = some u ∧ u.username = uname ∧ u.password = pwd ∧
          ∀ w ∈ s.users.take k, ¬ (w.username = uname ∧ w.password = pwd)) ∧
      ((¬ ∃ u ∈ s.users, u.username = uname ∧ u.password = pwd) →
        login s uname pwd =
            (s, [.text "Username: ", .text "Password: ", .text "Invalid credentials.\n"]) ∧
          (s.currentUser = none → (login s uname pwd).1.currentUser = none)) := by
  have hfound : (∃ u ∈ s.users, u.username = uname ∧ u.password = pwd) →
      ∃ k u, login s uname pwd =
          ({ s with currentUser := some k },
            [.text "Username: ", .text "Password: ", .text "Login successful!\n"]) ∧
        s.users[k]? = some u ∧ u.username = uname ∧ u.password = pwd ∧
        ∀ w ∈ s.users.take k, ¬ (w.username = uname ∧ w.password = pwd) := by
    intro hex
    cases hl : loginLoop uname pwd s.users 0 with
    | none => exact absurd hex ((loginLoop_eq_none uname pwd s.users 0).1 hl)
    | some k =>
      obtain ⟨u, _, hk, h1, h2, h3⟩ := loginLoop_eq_some uname pwd s.users 0 k hl
      exact ⟨k, u, by simp only [login, hl], by simpa using hk, h1, h2, by simpa using h3⟩
  have hmiss : (¬ ∃ u ∈ s.users, u.username = uname ∧ u.password = pwd) →
      login s uname pwd =
        (s, [.text "Username: ", .text "Password: ", .text "Invalid credentials.\n"]) := by
    intro hno
    have hl := (loginLoop_eq_none uname pwd s.users 0).2 hno
    simp only [login, hl]
  refine ⟨⟨fun hout => ?_, fun hex => ?_⟩, hfound, fun hno => ⟨hmiss hno, fun hc => ?_⟩⟩
  · by_contra hno
    rw [hmiss hno] at hout
    have hne : ([.text "Username: ", .text "Password: ", .text "Invalid credentials.\n"] :
        List Output) ≠
        [.text "Username: ", .text "Password: ", .text "Login successful!\n"] := by decide
    exact hne hout
  · obtain ⟨k, u, hk, _⟩ := hfound hex
    rw [hk]
  · rw [hmiss hno]; exact hc

/-- C7 on a directory that stores `"ann"` twice with different passwords: the
pair `("ann", "pw2")` binds the session to position 1, and the pair
`("ann", "pw3")` is refused and leaves the state alone. -/
theorem login_exact_match_witness :
    (login (signUp (signUp RentalSystem.init "ann" "pw1").1 "ann" "pw2").1 "ann" "pw2").1.currentUser
        = some 1 ∧
      login (signUp (signUp RentalSystem.init "ann" "pw1").1 "ann" "pw2").1 "ann" "pw3" =
        ((signUp (signUp RentalSystem.init "ann" "pw1").1 "ann" "pw2").1,
          [.text "Username: ", .text "Password: ", .text "Invalid credentials.\n"]) :=
  ⟨by decide,
    ((login_exact_match (signUp (signUp RentalSystem.init "ann" "pw1").1 "ann" "pw2").1
      "ann" "pw3").2.2 (by decide)).1⟩

/-! ## The two loops over the fleet -/

theorem firstAt_zero (p : Vehicle → Prop) (v : Vehicle) (vs : List Vehicle) (h : p v) :
    FirstAt p (v :: vs) 0 v :=
  ⟨by simp, h, by simp⟩

theorem firstAt_succ (p : Vehicle → Prop) (w v : Vehicle) (vs : List Vehicle) (k : Nat)
    (hw : ¬ p w) (h : FirstAt p vs k v) : FirstAt p (w :: vs) (k + 1) v := by
  obtain ⟨h1, h2, h3⟩ := h
  refine ⟨by simpa using h1, h2, ?_⟩
  intro x hx
  rw [List.take_succ_cons] at hx
  rcases List.mem_cons.1 hx with rfl | hx
  · exact hw
  · exact h3 x hx

theorem firstAt_cons_inv (p : Vehicle → Prop) (w v : Vehicle) (vs : List Vehicle) (k : Nat)
    (h : FirstAt p (w :: vs) k v) :
    (k = 0 ∧ v = w ∧ p w) ∨ (∃ j, k = j + 1 ∧ ¬ p w ∧ FirstAt p vs j v) := by
  obtain ⟨h1, h2, h3⟩ := h
  cases k with
  | zero =>
    simp only [List.getElem?_cons_zero, Option.some.injEq] at h1
    subst h1
    exact Or.inl ⟨rfl, rfl, h2⟩
  | succ j =>
    refine Or.inr ⟨j, rfl, h3 w (by simp), ?_, h2, ?_⟩
    · simpa using h1
    · intro x hx
      exact h3 x (by rw [List.take_succ_cons]; exact List.mem_cons_of_mem _ hx)

theorem firstAt_unique (p : Vehicle → Prop) (vs : List Vehicle) (k j : Nat) (v w : Vehicle)
    (h1 : FirstAt p vs k v) (h2 : FirstAt p vs j w) : k = j ∧ v = w := by
  induction vs generalizing k j with
  | nil => simp [FirstAt] at h1
  | cons x xs ih =>
    rcases firstAt_cons_inv p x v xs k h1 with ⟨rfl, rfl, hp⟩ | ⟨k', rfl, hnp, hk⟩
    · rcases firstAt_cons_inv p v w xs j h2 with ⟨rfl, rfl, _⟩ | ⟨j', rfl, hnp, _⟩
      · exact ⟨rfl, rfl⟩
      · exact absurd hp hnp
    · rcases firstAt_cons_inv p x w xs j h2 with ⟨rfl, rfl, hp⟩ | ⟨j', rfl, _, hj⟩
      · exact absurd hp hnp
      · obtain ⟨e1, e2⟩ := ih k' j' hk hj
        exact ⟨by rw [e1], e2⟩

theorem bookLoop_eq_some (id : Int) (vs vs' : List Vehicle) (h : bookLoop id vs = some vs') :
    ∃ k v, FirstAt (Bookable id) vs k v ∧ vs' = vs.set k (v.setAvailable false) := by
  induction vs generalizing vs' with
  | nil => simp [bookLoop] at h
  | cons w ws ih =>
    by_cases hw : w.getId = id ∧ w.isAvailable = true
    · simp only [bookLoop, hw, and_self, if_true, Option.some.injEq] at h
      exact ⟨0, w, firstAt_zero _ w ws hw, by rw [← h]; rfl⟩
    · simp only [bookLoop, hw, if_false, Option.map_eq_some'] at h
      obtain ⟨ys, hys, rfl⟩ := h
      obtain ⟨k, v, hk, rfl⟩ := ih ys hys
      exact ⟨k + 1, v, firstAt_succ _ w v ws k hw hk, rfl⟩

theorem bookLoop_eq_none (id : Int) (vs : List Vehicle) :
    bookLoop id vs = none ↔ ∀ w ∈ vs, ¬ Bookable id w := by
  induction vs with
  | nil => simp [bookLoop]
  | cons w ws ih =>
    by_cases hw : w.getId = id ∧ w.isAvailable = true
    · simp only [bookLoop, hw, and_self, if_true, List.mem_cons, forall_eq_or_imp]
      constructor
      · intro h; cases h
      · intro h; exact absurd hw h.1
    · simp only [bookLoop, hw, if_false, Option.map_eq_none', ih, List.mem_cons,
        forall_eq_or_imp]
      exact ⟨fun h => ⟨hw, h⟩, fun h => h.2⟩

theorem bookLoop_of_firstAt (id : Int) (vs : List Vehicle) (k : Nat) (v : Vehicle)
    (h : FirstAt (Bookable id) vs k v) :
    bookLoop id vs = some (vs.set k (v.setAvailable false)) := by
  cases hb : bookLoop id vs with
  | none =>
    have := (bookLoop_eq_none id vs).1 hb v (List.getElem?_mem h.1)
    exact absurd h.2.1 this
  | some vs' =>
    obtain ⟨j, w, hj, rfl⟩ := bookLoop_eq_some id vs vs' hb
    obtain ⟨e1, e2⟩ := firstAt_unique _ vs k j v w h hj
    rw [e1, e2]

theorem returnLoop_eq_some (id : Int) (vs : List Vehicle) (r : Vehicle × List Vehicle)
    (h : returnLoop id vs = some r) :
    ∃ k, FirstAt (Returnable id) vs k r.1 ∧ r.2 = vs.set k (r.1.setAvailable true) := by
  induction vs generalizing r with
  | nil => simp [returnLoop] at h
  | cons w ws ih =>
    by_cases hw : w.getId = id ∧ w.isAvailable = false
    · simp only [returnLoop, hw, and_self, if_true, Option.some.injEq] at h
      subst h
      exact ⟨0, firstAt_zero _ w ws hw, rfl⟩
    · simp only [returnLoop, hw, if_false, Option.map_eq_some'] at h
      obtain ⟨q, hq, rfl⟩ := h
      obtain ⟨k, hk, he⟩ := ih q hq
      exact ⟨k + 1, firstAt_succ _ w q.1 ws k hw hk, by simp [he]⟩

theorem returnLoop_eq_none (id : Int) (vs : List Vehicle) :
    returnLoop id vs = none ↔ ∀ w ∈ vs, ¬ Returnable id w := by
  induction vs with
  | nil => simp [returnLoop]
  | cons w ws ih =>
    by_cases hw : w.getId = id ∧ w.isAvailable = false
    · simp only [returnLoop, hw, and_self, if_true, List.mem_cons, forall_eq_or_imp]
      constructor
      · intro h; cases h
      · intro h; exact absurd hw h.1
    · simp only [returnLoop, hw, if_false, Option.map_eq_none', ih, List.mem_cons,
        forall_eq_or_imp]
      exact ⟨fun h => ⟨hw, h⟩, fun h => h.2⟩

theorem returnLoop_of_firstAt (id : Int) (vs : List Vehicle) (k : Nat) (v : Vehicle)
    (h : FirstAt (Returnable id) vs k v) :
    returnLoop id vs = some (v, vs.set k (v.setAvailable true)) := by
  cases hb : returnLoop id vs with
  | none =>
    have := (returnLoop_eq_none id vs).1 hb v (List.getElem?_mem h.1)
    exact absurd h.2.1 this
  | some r =>
    obtain ⟨j, hj, he⟩ := returnLoop_eq_some id vs r hb
    obtain ⟨e1, e2⟩ := firstAt_unique _ vs k j v r.1 h hj
    rw [e1, e2, ← he]

/-! ## Replacing one vehicle of the list -/

theorem set_self_of_getElem? (vs : List Vehicle) (k : Nat) (v : Vehicle)
    (h : vs[k]? = some v) : vs.set k v = vs := by
  induction vs generalizing k with
  | nil => rfl
  | cons w ws ih =>
    cases k with
    | zero =>
      simp only [List.getElem?_cons_zero, Option.some.injEq] at h
      simp [h]
    | succ j =>
      simp only [List.getElem?_cons_succ] at h
      simp [ih j h]

theorem take_set_self (vs : List Vehicle) (k : Nat) (a : Vehicle) :
    (vs.set k a).take k = vs.take k := by
  induction vs generalizing k with
  | nil => rfl
  | cons w ws ih =>
    cases k with
    | zero => rfl
    | succ j => simp [ih j]

theorem mem_take_getElem? (vs : List Vehicle) (k : Nat) (w : Vehicle) (h : w ∈ vs.take k) :
    ∃ j, j < k ∧ vs[j]? = some w := by
  induction vs generalizing k with
  | nil => simp at h
  | cons x xs ih =>
    cases k with
    | zero => simp at h
    | succ n =>
      rw [List.take_succ_cons] at h
      rcases List.mem_cons.1 h with rfl | h
      · exact ⟨0, by omega, by simp⟩
      · obtain ⟨j, hj, hw⟩ := ih n h
        exact ⟨j + 1, by omega, by simpa using hw⟩

theorem getElem?_set_same (vs : List Vehicle) (k : Nat) (v a : Vehicle)
    (h : vs[k]? = some v) : (vs.set k a)[k]? = some a := by
  induction vs generalizing k with
  | nil => simp at h
  | cons w ws ih =>
    cases k with
    | zero => simp
    | succ j =>
      simp only [List.getElem?_cons_succ] at h
      simpa using ih j h

theorem map_set_frame {β : Type} (f : Vehicle → β) (vs : List Vehicle) (k : Nat)
    (v a : Vehicle) (h : vs[k]? = some v) (hf : f a = f v) :
    (vs.set k a).map f = vs.map f := by
  induction vs generalizing k with
  | nil => rfl
  | cons w ws ih =>
    cases k with
    | zero =>
      simp only [List.getElem?_cons_zero, Option.some.injEq] at h
      simp [hf, h]
    | succ j =>
      simp only [List.getElem?_cons_succ] at h
      simp [ih j h]

theorem bookVehicle_of_firstAt (s : RentalSystem) (i : Int) (k : Nat) (v : Vehicle)
    (h : FirstAt (Bookable i) s.vehicles k v) :
    bookVehicle s i =
      ({ s with vehicles := s.vehicles.set k (v.setAvailable false) },
        [.text "Vehicle booked successfully.\n"]) := by
  simp only [bookVehicle, bookLoop_of_firstAt i s.vehicles k v h]

theorem bookVehicle_of_none (s : RentalSystem) (i : Int)
    (h : ∀ w ∈ s.vehicles, ¬ Bookable i w) :
    bookVehicle s i = (s, [.text "Vehicle not available.\n"]) := by
  simp only [bookVehicle, (bookLoop_eq_none i s.vehicles).2 h]

theorem bookVehicle_cases (s : RentalSystem) (i : Int) :
    (∃ k v, FirstAt (Bookable i) s.vehicles k v ∧
        bookVehicle s i =
          ({ s with vehicles := s.vehicles.set k (v.setAvailable false) },
            [.text "Vehicle booked successfully.\n"])) ∨
      ((∀ w ∈ s.vehicles, ¬ Bookable i w) ∧
        bookVehicle s i = (s, [.text "Vehicle not available.\n"])) := by
  cases hb : bookLoop i s.vehicles with
  | none =>
    have hn := (bookLoop_eq_none i s.vehicles).1 hb
    exact Or.inr ⟨hn, bookVehicle_of_none s i hn⟩
  | some vs' =>
    obtain ⟨k, v, hk, _⟩ := bookLoop_eq_some i s.vehicles vs' hb
    exact Or.inl ⟨k, v, hk, bookVehicle_of_firstAt s i k v hk⟩

theorem returnVehicle_of_firstAt (s : RentalSystem) (i : Int) (k : Nat) (v : Vehicle)
    (usageIn : List (Option Int)) (h : FirstAt (Returnable i) s.vehicles k v) :
    returnVehicle s i usageIn =
      (inputInt "Enter hours/km used: " usageIn).map fun r =>
        ({ s with vehicles := s.vehicles.set k (v.setAvailable true) },
          r.2 ++ [.charge (v.calculateCharge r.1)]) := by
  simp only [returnVehicle, returnLoop_of_firstAt i s.vehicles k v h]
  cases inputInt "Enter hours/km used: " usageIn <;> rfl

theorem returnVehicle_of_none (s : RentalSystem) (i : Int) (usageIn : List (Option Int))
    (h : ∀ w ∈ s.vehicles, ¬ Returnable i w) :
    returnVehicle s i usageIn = some (s, [.text "Invalid vehicle or already returned.\n"]) := by
  simp only [returnVehicle, (returnLoop_eq_none i s.vehicles).2 h]

theorem returnVehicle_cases (s : RentalSystem) (i : Int) :
    (∃ k v, FirstAt (Returnable i) s.vehicles k v) ∨ (∀ w ∈ s.vehicles, ¬ Returnable i w) := by
  cases hb : returnLoop i s.vehicles with
  | none => exact Or.inr ((returnLoop_eq_none i s.vehicles).1 hb)
  | some r =>
    obtain ⟨k, hk, _⟩ := returnLoop_eq_some i s.vehicles r hb
    exact Or.inl ⟨k, r.1, hk⟩

theorem inputInt_returns (prompt : String) (usageIn : List (Option Int)) (u : Int)
    (hm : some u ∈ usageIn) (hu : 0 ≤ u) : ∃ r, inputInt prompt usageIn = some r := by
  induction usageIn with
  | nil => simp at hm
  | cons e rest ih =>
    cases e with
    | none =>
      obtain ⟨r, hr⟩ := ih (by simpa using hm)
      exact ⟨_, by simp only [inputInt, hr, Option.map_some']; rfl⟩
    | some val =>
      by_cases hv : val < 0
      · have hm' : some u ∈ rest := by
          rcases List.mem_cons.1 hm with h | h
          · simp only [Option.some.injEq] at h; omega
          · exact h
        obtain ⟨r, hr⟩ := ih hm'
        exact ⟨_, by simp only [inputInt, hv, if_true, hr, Option.map_some']; rfl⟩
      · exact ⟨_, by simp only [inputInt, hv, if_false]; rfl⟩

/-- C10. Frame of `bookVehicle` and `returnVehicle`. Either call keeps the
users, the session, the number of vehicles and the sequences of their ids,
type names and strategies. When `v` at position `k` is the first vehicle in
insertion order with id `i` that is available, `bookVehicle` replaces exactly
that entry by `v` with the flag cleared and reports success; when no vehicle
with id `i` is available (in particular when the id is absent) it reports
failure and the state is unchanged. `returnVehicle` does the same with the
first vehicle with id `i` that is reserved, setting the flag and reporting the
charge for the usage `inputInt` returns, and leaves the state unchanged when
there is no such vehicle. `returnVehicle` returns whenever a non-negative
usage is among the entries. -/
theorem book_return_frame (s : RentalSystem) (i : Int) :
    ((bookVehicle s i).1.users = s.users ∧
      (bookVehicle s i).1.currentUser = s.currentUser ∧
      (bookVehicle s i).1.vehicles.length = s.vehicles.length ∧
      (bookVehicle s i).1.vehicles.map Vehicle.id = s.vehicles.map Vehicle.id ∧
      (bookVehicle s i).1.vehicles.map Vehicle.type = s.vehicles.map Vehicle.type ∧
      (bookVehicle s i).1.vehicles.map Vehicle.strategy = s.vehicles.map Vehicle.strategy ∧
      (∀ k v, FirstAt (Bookable i) s.vehicles k v →
        v.available = true ∧
        bookVehicle s i =
          ({ s with vehicles := s.vehicles.set k (v.setAvailable false) },
            [.text "Vehicle booked successfully.\n"])) ∧
      ((∀ w ∈ s.vehicles, ¬ Bookable i w) →
        bookVehicle s i = (s, [.text "Vehicle not available.\n"]))) ∧
    (∀ usageIn r, returnVehicle s i usageIn = some r →
      r.1.users = s.users ∧ r.1.currentUser = s.currentUser ∧
      r.1.vehicles.length = s.vehicles.length ∧
      r.1.vehicles.map Vehicle.id = s.vehicles.map Vehicle.id ∧
      r.1.vehicles.map Vehicle.type = s.vehicles.map Vehicle.type ∧
      r.1.vehicles.map Vehicle.strategy = s.vehicles.map Vehicle.strategy) ∧
    (∀ k v usageIn usage log, FirstAt (Returnable i) s.vehicles k v →
      inputInt "Enter hours/km used: " usageIn = some (usage, log) →
      v.available = false ∧
      returnVehicle s i usageIn =
        some ({ s with vehicles := s.vehicles.set k (v.setAvailable true) },
          log ++ [.charge (v.calculateCharge usage)])) ∧
    (∀ usageIn, (∀ w ∈ s.vehicles, ¬ Returnable i w) →
      returnVehicle s i usageIn =
        some (s, [.text "Invalid vehicle or already returned.\n"])) ∧
    (∀ usageIn u, some u ∈ usageIn → 0 ≤ u → ∃ r, returnVehicle s i usageIn = some r) := by
  refine ⟨?_, ?_, ?_, ?_, ?_⟩
  · have hframe : (bookVehicle s i).1.users = s.users ∧
        (bookVehicle s i).1.currentUser = s.currentUser ∧
        (bookVehicle s i).1.vehicles.length = s.vehicles.length ∧
        (bookVehicle s i).1.vehicles.map Vehicle.id = s.vehicles.map Vehicle.id ∧
        (bookVehicle s i).1.vehicles.map Vehicle.type = s.vehicles.map Vehicle.type ∧
        (bookVehicle s i).1.vehicles.map Vehicle.strategy =
          s.vehicles.map Vehicle.strategy := by
      rcases bookVehicle_cases s i with ⟨k, v, hk, he⟩ | ⟨_, he⟩
      · rw [he]
        exact ⟨rfl, rfl, by simp, map_set_frame _ _ _ v _ hk.1 rfl,
          map_set_frame _ _ _ v _ hk.1 rfl, map_set_frame _ _ _ v _ hk.1 rfl⟩
      · rw [he]; exact ⟨rfl, rfl, rfl, rfl, rfl, rfl⟩
    obtain ⟨h1, h2, h3, h4, h5, h6⟩ := hframe
    exact ⟨h1, h2, h3, h4, h5, h6,
      fun k v hk => ⟨hk.2.1.2, bookVehicle_of_firstAt s i k v hk⟩,
      bookVehicle_of_none s i⟩
  · intro usageIn r hr
    rcases returnVehicle_cases s i with ⟨k, v, hk⟩ | hn
    · rw [returnVehicle_of_firstAt s i k v usageIn hk] at hr
      cases hi : inputInt "Enter hours/km used: " usageIn with
      | none => simp [hi] at hr
      | some q =>
        simp only [hi, Option.map_some', Option.some.injEq] at hr
        subst hr
        exact ⟨rfl, rfl, by simp, map_set_frame _ _ _ v _ hk.1 rfl,
          map_set_frame _ _ _ v _ hk.1 rfl, map_set_frame _ _ _ v _ hk.1 rfl⟩
    · rw [returnVehicle_of_none s i usageIn hn] at hr
      simp only [Option.some.injEq] at hr
      subst hr
      exact ⟨rfl, rfl, rfl, rfl, rfl, rfl⟩
  · intro k v usageIn usage log hk hin
    refine ⟨hk.2.1.2, ?_⟩
    rw [returnVehicle_of_firstAt s i k v usageIn hk, hin]
    rfl
  · exact fun usageIn hn => returnVehicle_of_none s i usageIn hn
  · intro usageIn u hm hu
    obtain ⟨q, hq⟩ := inputInt_returns "Enter hours/km used: " usageIn u hm hu
    rcases returnVehicle_cases s i with ⟨k, v, hk⟩ | hn
    · exact ⟨_, by rw [returnVehicle_of_firstAt s i k v usageIn hk, hq]; rfl⟩
    · exact ⟨_, returnVehicle_of_none s i usageIn hn⟩

/-- C10 on a fleet with two cars that share id 1, the first one reserved:
`bookVehicle 1` flips the second car, `returnVehicle 1` the first. -/
theorem book_return_frame_witness :
    bookVehicle (RentalSystem.ofFleet [(Car 1).setAvailable false, Car 1]) 1 =
      (RentalSystem.ofFleet [(Car 1).setAvailable false, (Car 1).setAvailable false],
        [.text "Vehicle booked successfully.\n"]) ∧
    returnVehicle (RentalSystem.ofFleet [(Car 1).setAvailable false, Car 1]) 1 [some 2] =
      some (RentalSystem.ofFleet [Car 1, Car 1],
        [.text "Enter hours/km used: ", .charge 200]) :=
  ⟨((book_return_frame _ 1).1.2.2.2.2.2.2.1 1 (Car 1) (by decide)).2,
    ((book_return_frame _ 1).2.2.1 0 ((Car 1).setAvailable false) [some 2] 2
      [.text "Enter hours/km used: "] (by decide) (by decide)).2⟩

/-! ## Charges -/

theorem calculateCharge_of_isCar (v : Vehicle) (u : Int) (h : v.isCar) :
    v.calculateCharge u = 100 * u := by
  have hs : v.strategy = .PerHourStrategy := congrArg Vehicle.strategy h
  simp only [Vehicle.calculateCharge, hs, ChargeStrategy.calculateCharge]
  ring

theorem calculateCharge_of_isMotorcycle (v : Vehicle) (u : Int) (h : v.isMotorcycle) :
    v.calculateCharge u = 10 * u := by
  have hs : v.strategy = .PerKmStrategy := congrArg Vehicle.strategy h
  simp only [Vehicle.calculateCharge, hs, ChargeStrategy.calculateCharge]
  ring

/-- The charge for a usage that fits an `int` stays below `2 ^ 53` in both
strategies, so the `double` that the program computes is this integer. -/
theorem calculateCharge_exact (c : ChargeStrategy) (u : Int) (h0 : 0 ≤ u) (h1 : u < 2 ^ 31) :
    0 ≤ c.calculateCharge u ∧ c.calculateCharge u < 2 ^ 53 := by
  cases c <;> simp only [ChargeStrategy.calculateCharge] <;> constructor <;> omega

theorem inputInt_of_nonneg (prompt : String) (u : Int) (rest : List (Option Int))
    (hu : 0 ≤ u) : inputInt prompt (some u :: rest) = some (u, [.text prompt]) := by
  simp only [inputInt, not_lt.2 hu, if_false]

/-! ## What `cout << charge` writes -/

theorem decimalExponentAux_spec (fuel n : Nat) (h1 : 1 ≤ n) (h2 : n ≤ fuel) :
    10 ^ decimalExponentAux fuel n ≤ n ∧ n < 10 ^ (decimalExponentAux fuel n + 1) := by
  induction fuel generalizing n with
  | zero => omega
  | succ f ih =>
    by_cases h : n < 10
    · simp only [decimalExponentAux, h, if_true]
      omega
    · simp only [decimalExponentAux, h, if_false]
      obtain ⟨ha, hb⟩ := ih (n / 10) (by omega) (by omega)
      constructor
      · rw [pow_succ]; omega
      · rw [pow_succ]; omega

theorem decimalExponent_spec (n : Nat) (h1 : 1 ≤ n) :
    10 ^ decimalExponent n ≤ n ∧ n < 10 ^ (decimalExponent n + 1) :=
  decimalExponentAux_spec n n h1 (le_refl n)

theorem decimalExponent_ge (n : Nat) (h : 10 ^ 6 ≤ n) : 6 ≤ decimalExponent n := by
  by_contra hlt
  have hs := (decimalExponent_spec n (by omega)).2
  have : 10 ^ (decimalExponent n + 1) ≤ 10 ^ 6 :=
    Nat.pow_le_pow_right (by omega) (by omega)
  omega

theorem roundSix_value (n : Nat) (h : 10 ^ 6 ≤ n) :
    (roundSix n).1 * 10 ^ ((roundSix n).2 - 5) =
      if 10 ^ (decimalExponent n - 5) < 2 * (n % 10 ^ (decimalExponent n - 5)) ∨
          (2 * (n % 10 ^ (decimalExponent n - 5)) = 10 ^ (decimalExponent n - 5) ∧
            n / 10 ^ (decimalExponent n - 5) % 2 = 1) then
        (n / 10 ^ (decimalExponent n - 5) + 1) * 10 ^ (decimalExponent n - 5)
      else
        n / 10 ^ (decimalExponent n - 5) * 10 ^ (decimalExponent n - 5) := by
  have he := decimalExponent_ge n h
  unfold roundSix
  split_ifs with h1 h2
  · have : decimalExponent n + 1 - 5 = (decimalExponent n - 5) + 1 := by omega
    simp only [h2, this, pow_succ]
    ring
  · rfl
  · rfl

theorem shownNat_close (n : Nat) :
    2 * shownNat n ≤ 2 * n + 10 ^ (decimalExponent n - 5) ∧
      2 * n ≤ 2 * shownNat n + 10 ^ (decimalExponent n - 5) := by
  have hpos : 0 < 10 ^ (decimalExponent n - 5) := Nat.pow_pos (by omega)
  unfold shownNat
  split_ifs with h
  · omega
  · rw [roundSix_value n (by omega)]
    have hdm := Nat.div_add_mod n (10 ^ (decimalExponent n - 5))
    have hlt := Nat.mod_lt n hpos
    rw [Nat.mul_comm] at hdm
    split_ifs with h1
    · rw [Nat.add_mul, Nat.one_mul]
      omega
    · omega

theorem shownNat_exact (n : Nat) (h : n % 10 ^ (decimalExponent n - 5) = 0) :
    shownNat n = n := by
  unfold shownNat
  split_ifs with h6
  · rfl
  · rw [roundSix_value n (by omega)]
    have hdm := Nat.div_add_mod n (10 ^ (decimalExponent n - 5))
    have hpos : 0 < 10 ^ (decimalExponent n - 5) := Nat.pow_pos (by omega)
    rw [Nat.mul_comm] at hdm
    rw [h] at hdm ⊢
    simp only [Nat.mul_zero, Nat.add_zero] at hdm ⊢
    have hne : ¬ (10 ^ (decimalExponent n - 5) < 0 ∨
        (0 = 10 ^ (decimalExponent n - 5) ∧ n / 10 ^ (decimalExponent n - 5) % 2 = 1)) := by
      omega
    rw [if_neg hne]
    exact hdm

theorem formatDouble_small (n : Nat) (h : n < 10 ^ 6) :
    formatDouble (n : Int) = toString (n : Int) := by
  show formatNat n = toString n
  simp only [formatNat, h, if_true]

theorem roundSix_mantissa (n : Nat) (h : 10 ^ 6 ≤ n) :
    10 ^ 5 ≤ (roundSix n).1 ∧ (roundSix n).1 < 10 ^ 6 := by
  have he := decimalExponent_ge n h
  have hs := decimalExponent_spec n (by omega)
  have hpos : 0 < 10 ^ (decimalExponent n - 5) := Nat.pow_pos (by omega)
  have h1 : 10 ^ decimalExponent n = 10 ^ 5 * 10 ^ (decimalExponent n - 5) := by
    rw [← pow_add]; congr 1; omega
  have h2 : 10 ^ (decimalExponent n + 1) = 10 ^ 6 * 10 ^ (decimalExponent n - 5) := by
    rw [← pow_add]; congr 1; omega
  have hq1 : 10 ^ 5 ≤ n / 10 ^ (decimalExponent n - 5) := by
    rw [Nat.le_div_iff_mul_le hpos]; omega
  have hq2 : n / 10 ^ (decimalExponent n - 5) < 10 ^ 6 := by
    rw [Nat.div_lt_iff_lt_mul hpos]; omega
  unfold roundSix
  split_ifs with ha hb
  · simp
  · simp only; omega
  · simp only; omega

/-! ## Reading a numeral back -/

theorem digitChar_spec (d : Nat) (h : d < 10) :
    Nat.digitChar d ≠ ',' ∧ Nat.digitChar d ≠ '-' ∧ (Nat.digitChar d).toNat - 48 = d := by
  interval_cases d <;> decide

theorem toDigitsCore_spec (fuel n : Nat) (ds : List Char) (h : n < fuel) :
    ∃ l, Nat.toDigitsCore 10 fuel n ds = l ++ ds ∧ (∀ c ∈ l, c ≠ ',' ∧ c ≠ '-') ∧
      digitsValue l = n := by
  induction fuel generalizing n ds with
  | zero => omega
  | succ f ih =>
    have hd := digitChar_spec (n % 10) (Nat.mod_lt n (by omega))
    by_cases h0 : n / 10 = 0
    · refine ⟨[Nat.digitChar (n % 10)], ?_, ?_, ?_⟩
      · simp [Nat.toDigitsCore, h0]
      · intro c hc
        simp only [List.mem_singleton] at hc
        subst hc
        exact ⟨hd.1, hd.2.1⟩
      · simp only [digitsValue, List.foldl_cons, List.foldl_nil, hd.2.2]
        omega
    · obtain ⟨l, hl, hc, hv⟩ := ih (n / 10) (Nat.digitChar (n % 10) :: ds) (by omega)
      refine ⟨l ++ [Nat.digitChar (n % 10)], ?_, ?_, ?_⟩
      · simp [Nat.toDigitsCore, h0, hl]
      · intro c hcm
        rcases List.mem_append.1 hcm with hcm | hcm
        · exact hc c hcm
        · simp only [List.mem_singleton] at hcm
          subst hcm
          exact ⟨hd.1, hd.2.1⟩
      · unfold digitsValue at hv ⊢
        rw [List.foldl_append, hv]
        simp only [List.foldl_cons, List.foldl_nil, hd.2.2]
        omega

theorem natRepr_spec (n : Nat) :
    (∀ c ∈ (Nat.repr n).data, c ≠ ',' ∧ c ≠ '-') ∧ digitsValue (Nat.repr n).data = n := by
  obtain ⟨l, hl, hc, hv⟩ := toDigitsCore_spec (n + 1) n [] (by omega)
  have : (Nat.repr n).data = l := by
    simp [Nat.repr, Nat.toDigits, hl, List.asString]
  rw [this]
  exact ⟨hc, hv⟩

theorem natRepr_injective (n m : Nat) (h : Nat.repr n = Nat.repr m) : n = m := by
  have h1 := (natRepr_spec n).2
  have h2 := (natRepr_spec m).2
  rw [h] at h1
  omega

theorem intToString_data (a : Int) :
    (∃ n : Nat, a = n ∧ (toString a).data = (Nat.repr n).data) ∨
      (∃ n : Nat, a = Int.negSucc n ∧ (toString a).data = '-' :: (Nat.repr (n + 1)).data) := by
  cases a with
  | ofNat n => exact Or.inl ⟨n, rfl, rfl⟩
  | negSucc n => exact Or.inr ⟨n, rfl, rfl⟩

theorem intToString_no_comma (a : Int) : ∀ c ∈ (toString a).data, c ≠ ',' := by
  rcases intToString_data a with ⟨n, _, hd⟩ | ⟨n, _, hd⟩
  · rw [hd]; exact fun c hc => ((natRepr_spec n).1 c hc).1
  · rw [hd]
    intro c hc
    rcases List.mem_cons.1 hc with rfl | hc
    · decide
    · exact ((natRepr_spec (n + 1)).1 c hc).1

theorem intToString_injective (a b : Int) (h : (toString a).data = (toString b).data) :
    a = b := by
  rcases intToString_data a with ⟨n, rfl, hn⟩ | ⟨n, rfl, hn⟩ <;>
    rcases intToString_data b with ⟨m, rfl, hm⟩ | ⟨m, rfl, hm⟩
  · rw [hn, hm] at h
    have := natRepr_injective n m (String.ext h)
    rw [this]
  · rw [hn, hm] at h
    have hmem : '-' ∈ (Nat.repr n).data := by rw [h]; simp
    exact absurd rfl ((natRepr_spec n).1 _ hmem).2
  · rw [hn, hm] at h
    have hmem : '-' ∈ (Nat.repr m).data := by rw [← h]; simp
    exact absurd rfl ((natRepr_spec m).1 _ hmem).2
  · rw [hn, hm] at h
    have h' := List.tail_eq_of_cons_eq h
    have := natRepr_injective (n + 1) (m + 1) (String.ext h')
    have hnm : n = m := by omega
    rw [hnm]

theorem digitChar_facts (d : Nat) (h : d < 10) :
    Nat.digitChar d ≠ 'e' ∧ Nat.digitChar d ≠ '.' ∧ (Nat.digitChar d).toNat - 48 = d := by
  interval_cases d <;> decide

theorem IsDigitChar.ne_e {c : Char} (h : IsDigitChar c) : c ≠ 'e' := by
  obtain ⟨d, hd, rfl⟩ := h; exact (digitChar_facts d hd).1

theorem IsDigitChar.ne_dot {c : Char} (h : IsDigitChar c) : c ≠ '.' := by
  obtain ⟨d, hd, rfl⟩ := h; exact (digitChar_facts d hd).2.1

theorem digitsValue_append_digit (l : List Char) (d : Nat) (h : d < 10) :
    digitsValue (l ++ [Nat.digitChar d]) = digitsValue l * 10 + d := by
  unfold digitsValue
  rw [List.foldl_append]
  simp only [List.foldl_cons, List.foldl_nil, (digitChar_facts d h).2.2]

theorem fixedDigits_spec (k f : Nat) (pre : List Char) :
    (fixedDigits k f).length = k ∧ (∀ c ∈ fixedDigits k f, IsDigitChar c) ∧
      digitsValue (pre ++ fixedDigits k f) = digitsValue pre * 10 ^ k + f % 10 ^ k := by
  induction k generalizing f with
  | zero => simp [fixedDigits, Nat.mod_one]
  | succ k ih =>
    obtain ⟨h1, h2, h3⟩ := ih (f / 10)
    have hm : f % 10 < 10 := Nat.mod_lt f (by omega)
    refine ⟨by simp [fixedDigits, h1], ?_, ?_⟩
    · intro c hc
      simp only [fixedDigits, List.mem_append, List.mem_singleton] at hc
      rcases hc with hc | rfl
      · exact h2 c hc
      · exact ⟨f % 10, hm, rfl⟩
    · simp only [fixedDigits]
      rw [← List.append_assoc, digitsValue_append_digit _ _ hm, h3]
      have : f % 10 ^ (k + 1) = (f / 10 % 10 ^ k) * 10 + f % 10 := by
        rw [pow_succ, Nat.mul_comm (10 ^ k) 10, Nat.mod_mul, Nat.mul_comm]
        omega
      rw [this, pow_succ]
      ring


theorem takeWhile_stop (p : Char → Bool) (A R : List Char) (b : Char)
    (hA : ∀ a ∈ A, p a = true) (hb : p b = false) :
    (A ++ b :: R).takeWhile p = A ∧ (A ++ b :: R).dropWhile p = b :: R := by
  induction A with
  | nil => simp [List.takeWhile, List.dropWhile, hb]
  | cons a as ih =>
    obtain ⟨h1, h2⟩ := ih (fun x hx => hA x (List.mem_cons_of_mem _ hx))
    have ha := hA a (by simp)
    simp [List.takeWhile, List.dropWhile, ha, h1, h2]

theorem takeWhile_all (p : Char → Bool) (A : List Char) (hA : ∀ a ∈ A, p a = true) :
    A.takeWhile p = A ∧ A.dropWhile p = [] := by
  induction A with
  | nil => simp
  | cons a as ih =>
    obtain ⟨h1, h2⟩ := ih (fun x hx => hA x (List.mem_cons_of_mem _ hx))
    have ha := hA a (by simp)
    simp [List.takeWhile, List.dropWhile, ha, h1, h2]

theorem toDigitsCore_digits (fuel n : Nat) (ds : List Char) (h : n < fuel) :
    ∃ l, Nat.toDigitsCore 10 fuel n ds = l ++ ds ∧ (∀ c ∈ l, IsDigitChar c) := by
  induction fuel generalizing n ds with
  | zero => omega
  | succ f ih =>
    have hm : n % 10 < 10 := Nat.mod_lt n (by omega)
    by_cases h0 : n / 10 = 0
    · refine ⟨[Nat.digitChar (n % 10)], by simp [Nat.toDigitsCore, h0], ?_⟩
      intro c hc
      simp only [List.mem_singleton] at hc
      exact ⟨n % 10, hm, hc⟩
    · obtain ⟨l, hl, hc⟩ := ih (n / 10) (Nat.digitChar (n % 10) :: ds) (by omega)
      refine ⟨l ++ [Nat.digitChar (n % 10)], by simp [Nat.toDigitsCore, h0, hl], ?_⟩
      intro c hcm
      rcases List.mem_append.1 hcm with hcm | hcm
      · exact hc c hcm
      · simp only [List.mem_singleton] at hcm
        exact ⟨n % 10, hm, hcm⟩

theorem natRepr_digits (n : Nat) : ∀ c ∈ (Nat.repr n).data, IsDigitChar c := by
  obtain ⟨l, hl, hc⟩ := toDigitsCore_digits (n + 1) n [] (by omega)
  have : (Nat.repr n).data = l := by
    simp [Nat.repr, Nat.toDigits, hl, List.asString]
  rw [this]
  exact hc

theorem fractionText_spec (k f : Nat) (hf : f < 10 ^ k) :
    ((fractionText k f).data = [] ∧ f = 0) ∨
      ∃ j g, j ≤ k ∧ (fractionText k f).data = '.' :: fixedDigits j g ∧
        f = g * 10 ^ (k - j) ∧ g < 10 ^ j := by
  induction k generalizing f with
  | zero =>
    left
    simp only [pow_zero, Nat.lt_one_iff] at hf
    exact ⟨rfl, hf⟩
  | succ k ih =>
    by_cases h0 : f % 10 = 0
    · have hdiv : f / 10 < 10 ^ k := by
        rw [pow_succ] at hf
        omega
      simp only [fractionText, h0, if_true]
      rcases ih (f / 10) hdiv with ⟨h1, h2⟩ | ⟨j, g, hj, h1, h2, h3⟩
      · left; exact ⟨h1, by omega⟩
      · right
        refine ⟨j, g, by omega, h1, ?_, h3⟩
        have : k + 1 - j = (k - j) + 1 := by omega
        rw [this, pow_succ, ← Nat.mul_assoc, ← h2]
        omega
    · right
      refine ⟨k + 1, f, le_refl _, ?_, by simp, hf⟩
      simp only [fractionText, h0, if_false]
      rfl

theorem digitsValue_cons_zero (l : List Char) : digitsValue ('0' :: l) = digitsValue l := by
  simp [digitsValue]

theorem exponentText_spec (e : Nat) : digitsValue (exponentText e).data = e := by
  unfold exponentText
  split_ifs with h
  · have : ("0" ++ toString e).data = '0' :: (Nat.repr e).data := rfl
    rw [this, digitsValue_cons_zero]
    exact (natRepr_spec e).2
  · exact (natRepr_spec e).2

theorem roundSix_exponent (n : Nat) (h : 10 ^ 6 ≤ n) : 6 ≤ (roundSix n).2 := by
  have he := decimalExponent_ge n h
  unfold roundSix
  split_ifs <;> simp only <;> omega

theorem digitsValue_singleton (d : Nat) (h : d < 10) :
    digitsValue [Nat.digitChar d] = d := by
  have := digitsValue_append_digit [] d h
  simpa [digitsValue] using this

/-- Reading back what `formatNat` writes gives the value rounded to six
significant digits. -/
theorem numeralValue_formatNat (n : Nat) : numeralValue (formatNat n) = shownNat n := by
  unfold formatNat shownNat
  split_ifs with h
  · have hd := natRepr_digits n
    have he : ∀ c ∈ (Nat.repr n).data, decide (c ≠ 'e') = true :=
      fun c hc => decide_eq_true (hd c hc).ne_e
    have hp : ∀ c ∈ (Nat.repr n).data, decide (c ≠ '.') = true :=
      fun c hc => decide_eq_true (hd c hc).ne_dot
    obtain ⟨t1, t2⟩ := takeWhile_all _ _ he
    obtain ⟨t3, t4⟩ := takeWhile_all _ _ hp
    show numeralValue (Nat.repr n) = n
    unfold numeralValue
    rw [t1, t2, t3, t4]
    have h0 : digitsValue ([] : List Char) = 0 := rfl
    simp [(natRepr_spec n).2, h0]
  · have hn : 10 ^ 6 ≤ n := by omega
    obtain ⟨hm1, hm2⟩ := roundSix_mantissa n hn
    have hexp := roundSix_exponent n hn
    generalize (roundSix n).1 = m at hm1 hm2 ⊢
    generalize (roundSix n).2 = e at hexp ⊢
    have hd1 : m / 10 ^ 5 < 10 := by
      rw [Nat.div_lt_iff_lt_mul (by norm_num)]; omega
    have hf : m % 10 ^ 5 < 10 ^ 5 := Nat.mod_lt m (by norm_num)
    have hm : m = m / 10 ^ 5 * 10 ^ 5 + m % 10 ^ 5 := by
      have := Nat.div_add_mod m (10 ^ 5); rw [Nat.mul_comm] at this; omega
    generalize m / 10 ^ 5 = d at hd1 hm ⊢
    generalize m % 10 ^ 5 = f at hf hm ⊢
    have hdata : (String.singleton (Nat.digitChar d) ++ fractionText 5 f
        ++ "e+" ++ exponentText e).data =
        ([Nat.digitChar d] ++ (fractionText 5 f).data) ++
          'e' :: ('+' :: (exponentText e).data) := by
      simp only [String.data_append, List.append_assoc]
      rfl
    have hc1 : IsDigitChar (Nat.digitChar d) := ⟨_, hd1, rfl⟩
    unfold numeralValue
    rw [hdata]
    rcases fractionText_spec 5 f hf with ⟨hF, hz⟩ | ⟨j, g, hj, hF, hg, hgj⟩
    · rw [hF]
      have he : ∀ c ∈ [Nat.digitChar d] ++ ([] : List Char),
          decide (c ≠ 'e') = true := by
        intro c hc
        simp only [List.append_nil, List.mem_singleton] at hc
        rw [hc]; exact decide_eq_true hc1.ne_e
      obtain ⟨t1, t2⟩ := takeWhile_stop _ _ ('+' :: (exponentText e).data) 'e' he (by decide)
      rw [t1, t2]
      have hp : ∀ c ∈ [Nat.digitChar d] ++ ([] : List Char),
          decide (c ≠ '.') = true := by
        intro c hc
        simp only [List.append_nil, List.mem_singleton] at hc
        rw [hc]; exact decide_eq_true hc1.ne_dot
      obtain ⟨t3, t4⟩ := takeWhile_all _ _ hp
      rw [t3, t4]
      simp only [List.drop, List.append_nil, List.length_nil, Nat.sub_zero,
        exponentText_spec, digitsValue_singleton _ hd1]
      rw [hz, Nat.add_zero] at hm
      have : e = 5 + (e - 5) := by omega
      conv_lhs => rw [this, pow_add, ← Nat.mul_assoc, ← hm]
    · rw [hF]
      have hD := fixedDigits_spec j g [Nat.digitChar d]
      have he : ∀ c ∈ [Nat.digitChar d] ++ '.' :: fixedDigits j g,
          decide (c ≠ 'e') = true := by
        intro c hc
        simp only [List.singleton_append, List.mem_cons] at hc
        rcases hc with rfl | rfl | hc
        · exact decide_eq_true hc1.ne_e
        · decide
        · exact decide_eq_true (hD.2.1 c hc).ne_e
      obtain ⟨t1, t2⟩ := takeWhile_stop _ _ ('+' :: (exponentText e).data) 'e' he (by decide)
      rw [t1, t2]
      have hp : ∀ c ∈ [Nat.digitChar d], decide (c ≠ '.') = true := by
        intro c hc
        simp only [List.mem_singleton] at hc
        rw [hc]; exact decide_eq_true hc1.ne_dot
      obtain ⟨t3, t4⟩ := takeWhile_stop _ _ (fixedDigits j g) '.' hp (by decide)
      rw [t3, t4]
      simp only [List.drop, exponentText_spec, hD.1, hD.2.2, digitsValue_singleton _ hd1,
        Nat.mod_eq_of_lt hgj]
      have h1 : e - j = (5 - j) + (e - 5) := by omega
      have h2 : 10 ^ 5 = 10 ^ j * 10 ^ (5 - j) := by rw [← pow_add]; congr 1; omega
      rw [h1, pow_add, ← Nat.mul_assoc]
      congr 1
      rw [hm, hg, h2]
      ring

theorem numeralValue_close (c : Int) (h : 0 ≤ c) :
    2 * (numeralValue (formatDouble c) : Int) ≤
        2 * c + 10 ^ (decimalExponent c.toNat - 5) ∧
      2 * c ≤ 2 * (numeralValue (formatDouble c) : Int) +
        10 ^ (decimalExponent c.toNat - 5) := by
  obtain ⟨n, rfl⟩ := Int.eq_ofNat_of_zero_le h
  have hn := shownNat_close n
  have hs : numeralValue (formatDouble (n : Int)) = shownNat n := numeralValue_formatNat n
  rw [hs, Int.toNat_ofNat]
  constructor
  · exact_mod_cast hn.1
  · exact_mod_cast hn.2

theorem numeralValue_exact (c : Int) (h : 0 ≤ c)
    (hz : c % 10 ^ (decimalExponent c.toNat - 5) = 0) :
    (numeralValue (formatDouble c) : Int) = c := by
  obtain ⟨n, rfl⟩ := Int.eq_ofNat_of_zero_le h
  have hs : numeralValue (formatDouble (n : Int)) = shownNat n := numeralValue_formatNat n
  rw [Int.toNat_ofNat] at hz
  have hz' : n % 10 ^ (decimalExponent n - 5) = 0 := by exact_mod_cast hz
  rw [hs, shownNat_exact n hz']

theorem decimalExponent_int (c : Int) (h : 1 ≤ c) :
    10 ^ decimalExponent c.toNat ≤ c ∧ c < 10 ^ (decimalExponent c.toNat + 1) := by
  obtain ⟨n, rfl⟩ := Int.eq_ofNat_of_zero_le (by omega : 0 ≤ c)
  have hn : 1 ≤ n := by exact_mod_cast h
  have hs := decimalExponent_spec n hn
  rw [Int.toNat_ofNat]
  constructor
  · exact_mod_cast hs.1
  · exact_mod_cast hs.2

theorem render_charge_small (c : Int) (h0 : 0 ≤ c) (h1 : c < 10 ^ 6) :
    (Output.charge c).render = "Vehicle returned. Charge: $" ++ toString c ++ "\n" := by
  obtain ⟨n, rfl⟩ := Int.eq_ofNat_of_zero_le h0
  have hn : n < 10 ^ 6 := by exact_mod_cast h1
  simp only [Output.render, formatDouble_small n hn]

theorem addVehicle_car (s : RentalSystem) (i : Int) :
    addVehicle s i 1 =
      ({ s with vehicles := s.vehicles ++ [Car i] },
        [.text "1. Car\n2. Motorcycle\nChoice: "]) := by
  simp [addVehicle]

theorem addVehicle_motorcycle (s : RentalSystem) (i : Int) :
    addVehicle s i 2 =
      ({ s with vehicles := s.vehicles ++ [Motorcycle i] },
        [.text "1. Car\n2. Motorcycle\nChoice: "]) := by
  simp [addVehicle]

theorem addVehicle_invalid (s : RentalSystem) (i choice : Int) (h1 : choice ≠ 1)
    (h2 : choice ≠ 2) :
    addVehicle s i choice =
      (s, [.text "1. Car\n2. Motorcycle\nChoice: ", .text "Invalid type.\n"]) := by
  simp [addVehicle, h1, h2]

/-- C2, the counterexample. After one car with id 1 has been added to the empty
fleet of a logged-in system, id 1 is present; adding a motorcycle with id 1
prints nothing but the menu of types, and the fleet then holds two vehicles
with id 1 instead of one. -/
theorem addVehicle_duplicate_id_accepted :
    FleetReachable (addVehicle RentalSystem.loggedIn 1 1).1 ∧
      (∃ v ∈ (addVehicle RentalSystem.loggedIn 1 1).1.vehicles, v.getId = 1) ∧
      (addVehicle RentalSystem.loggedIn 1 1).1.vehicles.length = 1 ∧
      (addVehicle (addVehicle RentalSystem.loggedIn 1 1).1 1 2).2 =
        [.text "1. Car\n2. Motorcycle\nChoice: "] ∧
      (addVehicle (addVehicle RentalSystem.loggedIn 1 1).1 1 2).1.vehicles =
        [Car 1, Motorcycle 1] ∧
      (addVehicle (addVehicle RentalSystem.loggedIn 1 1).1 1 2).1.vehicles.length = 2 :=
  ⟨.add _ 1 1 (.start _ (by decide)), ⟨Car 1, by decide, by decide⟩, by decide, by decide,
    by decide, by decide⟩

/-- C2, as amended. In every reachable fleet state, for an id `i` that is
already present, `addVehicle` with choice 1 appends `Car i` and with choice 2
appends `Motorcycle i`, both available; it prints only the menu of types and
the number of vehicles grows by one. With any other choice it prints
`"Invalid type.\n"` and the state is unchanged. (The proof uses neither
hypothesis: `addVehicle` never looks at the vehicles it already has.) -/
theorem addVehicle_appends_without_lookup (s : RentalSystem) (i choice : Int)
    (_hs : FleetReachable s) (_hi : ∃ v ∈ s.vehicles, v.getId = i) :
    (choice = 1 →
      addVehicle s i choice =
        ({ s with vehicles := s.vehicles ++ [Car i] },
          [.text "1. Car\n2. Motorcycle\nChoice: "])) ∧
    (choice = 2 →
      addVehicle s i choice =
        ({ s with vehicles := s.vehicles ++ [Motorcycle i] },
          [.text "1. Car\n2. Motorcycle\nChoice: "])) ∧
    (choice = 1 ∨ choice = 2 →
      (addVehicle s i choice).1.vehicles.length = s.vehicles.length + 1) ∧
    (choice ≠ 1 → choice ≠ 2 →
      addVehicle s i choice =
        (s, [.text "1. Car\n2. Motorcycle\nChoice: ", .text "Invalid type.\n"])) := by
  refine ⟨?_, ?_, ?_, addVehicle_invalid s i choice⟩
  · rintro rfl; exact addVehicle_car s i
  · rintro rfl; exact addVehicle_motorcycle s i
  · rintro (rfl | rfl)
    · rw [addVehicle_car]; simp
    · rw [addVehicle_motorcycle]; simp

/-- C2 as amended, on the fleet that already holds car 1: a motorcycle with
id 1 is appended. -/
theorem addVehicle_appends_without_lookup_witness :
    addVehicle (addVehicle RentalSystem.loggedIn 1 1).1 1 2 =
      ({ (addVehicle RentalSystem.loggedIn 1 1).1 with
          vehicles := (addVehicle RentalSystem.loggedIn 1 1).1.vehicles ++ [Motorcycle 1] },
        [.text "1. Car\n2. Motorcycle\nChoice: "]) :=
  (addVehicle_appends_without_lookup (addVehicle RentalSystem.loggedIn 1 1).1 1 2
    (.add _ 1 1 (.start _ (by decide))) ⟨Car 1, by decide, by decide⟩).2.1 rfl

/-! ## Booking twice, returning twice -/

theorem bookLoop_countP (i : Int) (vs vs' : List Vehicle) (h : bookLoop i vs = some vs') :
    vs'.countP (fun w => Bookable i w) + 1 = vs.countP (fun w => Bookable i w) := by
  induction vs generalizing vs' with
  | nil => simp [bookLoop] at h
  | cons w ws ih =>
    by_cases hw : w.getId = i ∧ w.isAvailable = true
    · simp only [bookLoop, hw, and_self, if_true, Option.some.injEq] at h
      subst h
      have h1 : ¬ Bookable i (w.setAvailable false) := by
        intro hb; exact absurd hb.2 (by simp [Vehicle.isAvailable, Vehicle.setAvailable])
      have h2 : Bookable i w := hw
      simp [List.countP_cons, h1, h2]
    · simp only [bookLoop, hw, if_false, Option.map_eq_some'] at h
      obtain ⟨ys, hys, rfl⟩ := h
      have h2 : ¬ Bookable i w := hw
      simp only [List.countP_cons, h2, decide_False, Bool.false_eq_true, if_false, add_zero]
      exact ih ys hys

theorem returnLoop_countP (i : Int) (vs : List Vehicle) (r : Vehicle × List Vehicle)
    (h : returnLoop i vs = some r) :
    r.2.countP (fun w => Returnable i w) + 1 = vs.countP (fun w => Returnable i w) := by
  induction vs generalizing r with
  | nil => simp [returnLoop] at h
  | cons w ws ih =>
    by_cases hw : w.getId = i ∧ w.isAvailable = false
    · simp only [returnLoop, hw, and_self, if_true, Option.some.injEq] at h
      subst h
      have h1 : ¬ Returnable i (w.setAvailable true) := by
        intro hb; exact absurd hb.2 (by simp [Vehicle.isAvailable, Vehicle.setAvailable])
      have h2 : Returnable i w := hw
      simp [List.countP_cons, h1, h2]
    · simp only [returnLoop, hw, if_false, Option.map_eq_some'] at h
      obtain ⟨q, hq, rfl⟩ := h
      have h2 : ¬ Returnable i w := hw
      simp only [List.countP_cons, h2, decide_False, Bool.false_eq_true, if_false, add_zero]
      exact ih q hq

theorem bookLoop_none_iff_countP (i : Int) (vs : List Vehicle) :
    bookLoop i vs = none ↔ vs.countP (fun w => Bookable i w) = 0 := by
  rw [bookLoop_eq_none, List.countP_eq_zero]
  simp

theorem returnLoop_none_iff_countP (i : Int) (vs : List Vehicle) :
    returnLoop i vs = none ↔ vs.countP (fun w => Returnable i w) = 0 := by
  rw [returnLoop_eq_none, List.countP_eq_zero]
  simp

theorem bookVehicle_booked (s s1 : RentalSystem) (i : Int)
    (h : bookVehicle s i = (s1, [.text "Vehicle booked successfully.\n"])) :
    ∃ vs', bookLoop i s.vehicles = some vs' ∧ s1 = { s with vehicles := vs' } := by
  cases hb : bookLoop i s.vehicles with
  | none =>
    simp only [bookVehicle, hb, Prod.mk.injEq] at h
    exact absurd h.2 (by decide)
  | some vs' =>
    simp only [bookVehicle, hb, Prod.mk.injEq] at h
    exact ⟨vs', rfl, h.1.symm⟩

theorem bookVehicle_refused_iff (s : RentalSystem) (i : Int) :
    bookVehicle s i = (s, [.text "Vehicle not available.\n"]) ↔
      bookLoop i s.vehicles = none := by
  cases hb : bookLoop i s.vehicles with
  | none => simp [bookVehicle, hb]
  | some vs' =>
    simp only [bookVehicle, hb, Prod.mk.injEq, reduceCtorEq, iff_false, not_and]
    intro _
    decide

theorem returnVehicle_charged (s s1 : RentalSystem) (i c : Int) (usageIn : List (Option Int))
    (out : List Output) (h : returnVehicle s i usageIn = some (s1, out))
    (hc : Output.charge c ∈ out) :
    ∃ r, returnLoop i s.vehicles = some r ∧ s1 = { s with vehicles := r.2 } := by
  cases hb : returnLoop i s.vehicles with
  | none =>
    simp only [returnVehicle, hb, Option.some.injEq, Prod.mk.injEq] at h
    rw [← h.2] at hc
    simp at hc
  | some r =>
    obtain ⟨v, vs'⟩ := r
    simp only [returnVehicle, hb] at h
    cases hi : inputInt "Enter hours/km used: " usageIn with
    | none => simp [hi] at h
    | some q =>
      simp only [hi, Option.some.injEq, Prod.mk.injEq] at h
      exact ⟨(v, vs'), rfl, h.1.symm⟩

theorem returnVehicle_refused_iff (s : RentalSystem) (i : Int) (usageIn : List (Option Int)) :
    returnVehicle s i usageIn = some (s, [.text "Invalid vehicle or already returned.\n"]) ↔
      returnLoop i s.vehicles = none := by
  cases hb : returnLoop i s.vehicles with
  | none => simp [returnVehicle, hb]
  | some r =>
    obtain ⟨v, vs'⟩ := r
    simp only [returnVehicle, hb, reduceCtorEq, iff_false]
    cases hi : inputInt "Enter hours/km used: " usageIn with
    | none => simp
    | some q =>
      simp only [Option.some.injEq, Prod.mk.injEq, not_and]
      intro _ hout
      have hm : Output.charge (v.calculateCharge q.1) ∈
          q.2 ++ [Output.charge (v.calculateCharge q.1)] := by simp
      rw [hout] at hm
      simp at hm

/-- C3, the counterexample. Two cars with id 1 are added to the empty fleet of a
logged-in system. `bookVehicle 1` succeeds and reserves the first; the
`bookVehicle 1` that follows immediately succeeds as well and reserves the
second, so it changes a vehicle's availability. -/
theorem bookVehicle_second_succeeds :
    FleetReachable (addVehicle (addVehicle RentalSystem.loggedIn 1 1).1 1 1).1 ∧
      (bookVehicle (addVehicle (addVehicle RentalSystem.loggedIn 1 1).1 1 1).1 1).2 =
        [.text "Vehicle booked successfully.\n"] ∧
      (bookVehicle (addVehicle (addVehicle RentalSystem.loggedIn 1 1).1 1 1).1 1).1.vehicles.map
          Vehicle.isAvailable = [false, true] ∧
      (bookVehicle
          (bookVehicle (addVehicle (addVehicle RentalSystem.loggedIn 1 1).1 1 1).1 1).1 1).2 =
        [.text "Vehicle booked successfully.\n"] ∧
      (bookVehicle
          (bookVehicle (addVehicle (addVehicle RentalSystem.loggedIn 1 1).1 1 1).1 1).1
          1).1.vehicles.map Vehicle.isAvailable = [false, false] :=
  ⟨.add _ 1 1 (.add _ 1 1 (.start _ (by decide))), by decide, by decide, by decide, by decide⟩

/-- C3, as amended. In every reachable fleet state, when `bookVehicle i`
succeeds, the `bookVehicle i` that follows immediately fails (it prints
`"Vehicle not available.\n"` and leaves the state, so every availability flag,
as it is) if and only if exactly one vehicle with id `i` was available before
the first call. This is the case whenever at most one vehicle of the fleet has
id `i`. -/
theorem bookVehicle_twice (s s1 : RentalSystem) (i : Int) (_hs : FleetReachable s)
    (h1 : bookVehicle s i = (s1, [.text "Vehicle booked successfully.\n"])) :
    (bookVehicle s1 i = (s1, [.text "Vehicle not available.\n"]) ↔
        s.vehicles.countP (fun w => Bookable i w) = 1) ∧
      (s.vehicles.countP (fun w => w.getId = i) ≤ 1 →
        bookVehicle s1 i = (s1, [.text "Vehicle not available.\n"])) := by
  obtain ⟨vs', hb, rfl⟩ := bookVehicle_booked s s1 i h1
  have hcount := bookLoop_countP i s.vehicles vs' hb
  have hiff : bookVehicle { s with vehicles := vs' } i =
        ({ s with vehicles := vs' }, [.text "Vehicle not available.\n"]) ↔
      s.vehicles.countP (fun w => Bookable i w) = 1 := by
    rw [bookVehicle_refused_iff, bookLoop_none_iff_countP]
    change vs'.countP (fun w => Bookable i w) = 0 ↔ _
    constructor <;> intro h <;> omega
  refine ⟨hiff, fun hle => hiff.2 ?_⟩
  have hmono : s.vehicles.countP (fun w => Bookable i w) ≤
      s.vehicles.countP (fun w => w.getId = i) := by
    apply List.countP_mono_left
    intro x _ hx
    simp only [decide_eq_true_eq] at hx ⊢
    exact hx.1
  omega

/-- C3 as amended, on the fleet of car 1 and motorcycle 2: after `bookVehicle 1`
a second `bookVehicle 1` is refused and leaves the state alone. -/
theorem bookVehicle_twice_witness :
    bookVehicle (bookVehicle (addVehicle (addVehicle RentalSystem.loggedIn 1 1).1 2 2).1 1).1 1 =
      ((bookVehicle (addVehicle (addVehicle RentalSystem.loggedIn 1 1).1 2 2).1 1).1,
        [.text "Vehicle not available.\n"]) :=
  (bookVehicle_twice (addVehicle (addVehicle RentalSystem.loggedIn 1 1).1 2 2).1
    (bookVehicle (addVehicle (addVehicle RentalSystem.loggedIn 1 1).1 2 2).1 1).1 1
    (.add _ 2 2 (.add _ 1 1 (.start _ (by decide)))) (by decide)).2 (by decide)

/-- C4, the counterexample. Two cars with id 1 are added to the empty fleet of a
logged-in system and both are booked. `returnVehicle 1` with usage 3 succeeds
and charges 300; the `returnVehicle 1` with usage 2 that follows immediately
succeeds as well: it charges 200 and makes the second car available. -/
theorem returnVehicle_second_succeeds :
    FleetReachable
        (bookVehicle
          (bookVehicle (addVehicle (addVehicle RentalSystem.loggedIn 1 1).1 1 1).1 1).1 1).1 ∧
      ((returnVehicle
          (bookVehicle
            (bookVehicle (addVehicle (addVehicle RentalSystem.loggedIn 1 1).1 1 1).1 1).1 1).1
          1 [some 3]).map fun r => (r.1.vehicles.map Vehicle.isAvailable, r.2)) =
        some ([true, false], [.text "Enter hours/km used: ", .charge 300]) ∧
      (((returnVehicle
          (bookVehicle
            (bookVehicle (addVehicle (addVehicle RentalSystem.loggedIn 1 1).1 1 1).1 1).1 1).1
          1 [some 3]).bind fun r => returnVehicle r.1 1 [some 2]).map
            fun r => (r.1.vehicles.map Vehicle.isAvailable, r.2)) =
        some ([true, true], [.text "Enter hours/km used: ", .charge 200]) :=
  ⟨.book _ 1 (.book _ 1 (.add _ 1 1 (.add _ 1 1 (.start _ (by decide))))), by decide,
    by decide⟩

/-- C4, as amended. In every reachable fleet state, when `returnVehicle i`
succeeds (it reports a charge), the `returnVehicle i` that follows immediately
fails (it prints `"Invalid vehicle or already returned.\n"`, reports no charge
and leaves the state, so every availability flag, as it is) if and only if
exactly one vehicle with id `i` was reserved before the first call. This is the
case whenever at most one vehicle of the fleet has id `i`. -/
theorem returnVehicle_twice (s s1 : RentalSystem) (i c : Int)
    (usageIn usageIn' : List (Option Int)) (out : List Output) (_hs : FleetReachable s)
    (h1 : returnVehicle s i usageIn = some (s1, out)) (hc : Output.charge c ∈ out) :
    (returnVehicle s1 i usageIn' =
          some (s1, [.text "Invalid vehicle or already returned.\n"]) ↔
        s.vehicles.countP (fun w => Returnable i w) = 1) ∧
      (s.vehicles.countP (fun w => w.getId = i) ≤ 1 →
        returnVehicle s1 i usageIn' =
          some (s1, [.text "Invalid vehicle or already returned.\n"])) := by
  obtain ⟨r, hb, rfl⟩ := returnVehicle_charged s s1 i c usageIn out h1 hc
  have hcount := returnLoop_countP i s.vehicles r hb
  have hiff : returnVehicle { s with vehicles := r.2 } i usageIn' =
        some ({ s with vehicles := r.2 }, [.text "Invalid vehicle or already returned.\n"]) ↔
      s.vehicles.countP (fun w => Returnable i w) = 1 := by
    rw [returnVehicle_refused_iff, returnLoop_none_iff_countP]
    change r.2.countP (fun w => Returnable i w) = 0 ↔ _
    constructor <;> intro h <;> omega
  refine ⟨hiff, fun hle => hiff.2 ?_⟩
  have hmono : s.vehicles.countP (fun w => Returnable i w) ≤
      s.vehicles.countP (fun w => w.getId = i) := by
    apply List.countP_mono_left
    intro x _ hx
    simp only [decide_eq_true_eq] at hx ⊢
    exact hx.1
  omega

/-- C4 as amended, on the fleet of the reserved car 1 and motorcycle 2: after
`returnVehicle 1` with usage 3 a second `returnVehicle 1` is refused and leaves
the state alone. -/
theorem returnVehicle_twice_witness :
    returnVehicle (addVehicle (addVehicle RentalSystem.loggedIn 1 1).1 2 2).1 1 [some 4] =
      some ((addVehicle (addVehicle RentalSystem.loggedIn 1 1).1 2 2).1,
        [.text "Invalid vehicle or already returned.\n"]) :=
  (returnVehicle_twice
    (bookVehicle (addVehicle (addVehicle RentalSystem.loggedIn 1 1).1 2 2).1 1).1
    (addVehicle (addVehicle RentalSystem.loggedIn 1 1).1 2 2).1 1 300 [some 3] [some 4]
    [.text "Enter hours/km used: ", .charge 300]
    (.book _ 1 (.add _ 2 2 (.add _ 1 1 (.start _ (by decide))))) (by decide) (by decide)).2
    (by decide)

/-! ## The usage is read after the vehicle has been made available -/

theorem inputInt_of_neg (prompt : String) (u : Int) (rest : List (Option Int)) (hu : u < 0) :
    inputInt prompt (some u :: rest) =
      (inputInt prompt rest).map fun r =>
        (r.1, .text prompt :: .text "Invalid input. Try again.\n" :: r.2) := by
  simp only [inputInt, hu, if_true]

theorem inputInt_result (prompt : String) (usageIn : List (Option Int)) (usage : Int)
    (log : List Output) (h : inputInt prompt usageIn = some (usage, log)) :
    0 ≤ usage ∧ ∀ c, Output.charge c ∉ log := by
  induction usageIn generalizing log with
  | nil => simp [inputInt] at h
  | cons e rest ih =>
    cases e with
    | none =>
      simp only [inputInt, Option.map_eq_some'] at h
      obtain ⟨q, hq, he⟩ := h
      simp only [Prod.mk.injEq] at he
      obtain ⟨h1, h2⟩ := ih q.2 (by rw [hq, ← he.1])
      exact ⟨h1, fun c => by rw [← he.2]; simpa using h2 c⟩
    | some val =>
      by_cases hv : val < 0
      · simp only [inputInt, hv, if_true, Option.map_eq_some'] at h
        obtain ⟨q, hq, he⟩ := h
        simp only [Prod.mk.injEq] at he
        obtain ⟨h1, h2⟩ := ih q.2 (by rw [hq, ← he.1])
        exact ⟨h1, fun c => by rw [← he.2]; simpa using h2 c⟩
      · simp only [inputInt, hv, if_false, Option.some.injEq, Prod.mk.injEq] at h
        exact ⟨by omega, fun c => by rw [← h.2]; simp⟩

theorem inputIntRun_state (prompt : String) (s : RentalSystem) (usageIn : List (Option Int)) :
    ∀ e ∈ (inputIntRun prompt s usageIn).1, e.2 = s := by
  induction usageIn with
  | nil => simp [inputIntRun]
  | cons x rest ih =>
    cases x with
    | none =>
      intro e he
      simp only [inputIntRun, List.mem_cons] at he
      rcases he with rfl | rfl | he
      · rfl
      · rfl
      · exact ih e he
    | some val =>
      by_cases hv : val < 0
      · intro e he
        simp only [inputIntRun, hv, if_true, List.mem_cons] at he
        rcases he with rfl | rfl | he
        · rfl
        · rfl
        · exact ih e he
      · intro e he
        simp only [inputIntRun, hv, if_false, List.mem_singleton] at he
        rw [he]

theorem inputInt_eq_run (prompt : String) (s : RentalSystem) (usageIn : List (Option Int)) :
    inputInt prompt usageIn =
      (inputIntRun prompt s usageIn).2.map fun usage =>
        (usage, (inputIntRun prompt s usageIn).1.map Prod.fst) := by
  induction usageIn with
  | nil => rfl
  | cons x rest ih =>
    cases x with
    | none =>
      simp only [inputInt, inputIntRun, ih]
      cases (inputIntRun prompt s rest).2 <;> rfl
    | some val =>
      by_cases hv : val < 0
      · simp only [inputInt, inputIntRun, hv, if_true, ih]
        cases (inputIntRun prompt s rest).2 <;> rfl
      · simp only [inputInt, inputIntRun, hv, if_false]
        rfl

theorem inputIntRun_of_neg (prompt : String) (s : RentalSystem) (u : Int)
    (rest : List (Option Int)) (hu : u < 0) :
    inputIntRun prompt s (some u :: rest) =
      ((.text prompt, s) :: (.text "Invalid input. Try again.\n", s)
        :: (inputIntRun prompt s rest).1, (inputIntRun prompt s rest).2) := by
  simp only [inputIntRun, hu, if_true]

theorem returnVehicleRun_of_firstAt (s : RentalSystem) (i : Int) (k : Nat) (v : Vehicle)
    (usageIn : List (Option Int)) (h : FirstAt (Returnable i) s.vehicles k v) :
    returnVehicleRun s i usageIn =
      match inputIntRun "Enter hours/km used: "
          { s with vehicles := s.vehicles.set k (v.setAvailable true) } usageIn with
      | (log, some usage) =>
        (log ++ [(.charge (v.calculateCharge usage),
            { s with vehicles := s.vehicles.set k (v.setAvailable true) })],
          some { s with vehicles := s.vehicles.set k (v.setAvailable true) })
      | (log, none) => (log, none) := by
  simp only [returnVehicleRun, returnLoop_of_firstAt i s.vehicles k v h]

/-- The run of `returnVehicle` is `returnVehicle` with the states added: the
call returns in the run exactly when `returnVehicle` has a result, with the same
final state and the same writes in the same order. -/
theorem returnVehicle_eq_run (s : RentalSystem) (i : Int) (usageIn : List (Option Int)) :
    returnVehicle s i usageIn =
      (returnVehicleRun s i usageIn).2.map fun s' =>
        (s', (returnVehicleRun s i usageIn).1.map Prod.fst) := by
  cases hb : returnLoop i s.vehicles with
  | none => simp only [returnVehicle, returnVehicleRun, hb]; rfl
  | some r =>
    obtain ⟨v, vs'⟩ := r
    simp only [returnVehicle, returnVehicleRun, hb]
    rw [inputInt_eq_run "Enter hours/km used: " { s with vehicles := vs' } usageIn]
    rcases hr : inputIntRun "Enter hours/km used: " { s with vehicles := vs' } usageIn with
      ⟨log, _ | usage⟩
    · rfl
    · simp

theorem viewLoop_eq_map (vs : List Vehicle) :
    viewLoop vs = vs.map fun v => Output.text v.display := by
  induction vs with
  | nil => rfl
  | cons v vs ih => simp [viewLoop, ih]

theorem append_cons_inj (c : Char) (l1 l2 r1 r2 : List Char) (h1 : ∀ x ∈ l1, x ≠ c)
    (h2 : ∀ x ∈ l2, x ≠ c) (h : l1 ++ c :: r1 = l2 ++ c :: r2) : l1 = l2 ∧ r1 = r2 := by
  induction l1 generalizing l2 with
  | nil =>
    cases l2 with
    | nil => simpa using h
    | cons y ys =>
      simp only [List.nil_append, List.cons_append, List.cons.injEq] at h
      exact absurd h.1.symm (h2 y (by simp))
  | cons x xs ih =>
    cases l2 with
    | nil =>
      simp only [List.nil_append, List.cons_append, List.cons.injEq] at h
      exact absurd h.1 (h1 x (by simp))
    | cons y ys =>
      simp only [List.cons_append, List.cons.injEq] at h
      obtain ⟨e1, e2⟩ := ih ys (fun z hz => h1 z (List.mem_cons_of_mem _ hz))
        (fun z hz => h2 z (List.mem_cons_of_mem _ hz)) h.2
      exact ⟨by rw [h.1, e1], e2⟩

theorem Vehicle.display_data (v : Vehicle) :
    v.display.data =
      "Vehicle ID: ".data ++ ((toString v.id).data ++ (',' :: (" Type: ".data ++ (v.type.data ++
        (", Available: ".data ++ ((if v.available then "Yes" else "No").data ++ ['\n'])))))) := by
  simp only [Vehicle.display, String.data_append, List.append_assoc]
  rfl

theorem Vehicle.display_injective (v w : Vehicle) (h : v.display = w.display) :
    v.id = w.id ∧ v.type = w.type ∧ v.available = w.available := by
  have hd := congrArg String.data h
  rw [Vehicle.display_data, Vehicle.display_data] at hd
  have h1 := List.append_cancel_left hd
  obtain ⟨hid, h2⟩ := append_cons_inj ',' _ _ _ _ (intToString_no_comma v.id)
    (intToString_no_comma w.id) h1
  have h3 := List.append_cancel_left h2
  have h4 := congrArg List.reverse h3
  simp only [List.reverse_append] at h4
  refine ⟨intToString_injective _ _ hid, ?_⟩
  cases hv : v.available <;> cases hw : w.available <;> simp only [hv, hw] at h4
  · have h5 := List.append_cancel_left h4
    exact ⟨String.ext (List.reverse_injective h5), rfl⟩
  · exact absurd h4 (by simp)
  · exact absurd h4 (by simp)
  · have h5 := List.append_cancel_left h4
    exact ⟨String.ext (List.reverse_injective h5), rfl⟩

theorem viewLoop_projection (vs ws : List Vehicle) (h : viewLoop vs = viewLoop ws) :
    vs.map (fun v => (v.id, v.type, v.available)) =
      ws.map (fun v => (v.id, v.type, v.available)) := by
  induction vs generalizing ws with
  | nil =>
    cases ws with
    | nil => rfl
    | cons w ws => simp [viewLoop] at h
  | cons v vs ih =>
    cases ws with
    | nil => simp [viewLoop] at h
    | cons w ws =>
      simp only [viewLoop, List.cons.injEq, Output.text.injEq] at h
      obtain ⟨h1, h2, h3⟩ := Vehicle.display_injective v w h.1
      simp only [List.map_cons, List.cons.injEq, Prod.mk.injEq]
      exact ⟨⟨h1, h2, h3⟩, ih ws h.2⟩

/-- C9. `viewVehicles` returns the state it was given, users, fleet and session
alike, and writes one line per stored vehicle in the order of the list. The
line of a vehicle is `"Vehicle ID: "`, its id, `", Type: "`, its type name,
`", Available: "`, `"Yes"` or `"No"` for its flag, and a line end. It is made of
the id, the type name and the flag only, and it determines all three: two
vehicles with the same line agree on them, so two fleets with the same listing
have the same sequence of projections. Calling `viewVehicles` again on the
state it returned writes the same lines. The order of the list is the order of
the additions: after `addVehicle` with choice 1 or 2 the listing is the former
listing followed by the line of the new vehicle. -/
theorem viewVehicles_pure (s : RentalSystem) :
    (viewVehicles s).1 = s ∧
      (viewVehicles s).2 =
        (s.vehicles.map fun v =>
          Output.text ("Vehicle ID: " ++ toString v.id ++ ", Type: " ++ v.type
            ++ ", Available: " ++ (if v.available then "Yes" else "No") ++ "\n")) ∧
      (viewVehicles s).2.length = s.vehicles.length ∧
      (viewVehicles (viewVehicles s).1).2 = (viewVehicles s).2 ∧
      (∀ i, (viewVehicles (addVehicle s i 1).1).2 =
        (viewVehicles s).2 ++
          [.text ("Vehicle ID: " ++ toString i ++ ", Type: Car, Available: Yes\n")]) ∧
      (∀ i, (viewVehicles (addVehicle s i 2).1).2 =
        (viewVehicles s).2 ++
          [.text ("Vehicle ID: " ++ toString i ++ ", Type: Motorcycle, Available: Yes\n")]) ∧
      (∀ v w : Vehicle, v.id = w.id → v.type = w.type → v.available = w.available →
        v.display = w.display) ∧
      (∀ v w : Vehicle, v.display = w.display →
        v.id = w.id ∧ v.type = w.type ∧ v.available = w.available) ∧
      (∀ t : RentalSystem, (viewVehicles t).2 = (viewVehicles s).2 →
        t.vehicles.map (fun v => (v.id, v.type, v.available)) =
          s.vehicles.map (fun v => (v.id, v.type, v.available))) := by
  refine ⟨rfl, viewLoop_eq_map _, ?_, rfl, ?_, ?_, ?_, Vehicle.display_injective,
    fun t h => viewLoop_projection _ _ h⟩
  · simp [viewVehicles, viewLoop_eq_map]
  · intro i
    simp only [viewVehicles, viewLoop_eq_map, addVehicle_car, List.map_append, List.map_cons,
      List.map_nil, List.append_cancel_left_eq, List.cons.injEq, Output.text.injEq, and_true]
    simp only [Vehicle.display, Car, Vehicle.create, if_true, String.append_assoc]
    rfl
  · intro i
    simp only [viewVehicles, viewLoop_eq_map, addVehicle_motorcycle, List.map_append,
      List.map_cons, List.map_nil, List.append_cancel_left_eq, List.cons.injEq,
      Output.text.injEq, and_true]
    simp only [Vehicle.display, Motorcycle, Vehicle.create, if_true, String.append_assoc]
    rfl
  · intro v w h1 h2 h3; simp [Vehicle.display, h1, h2, h3]

/-- C9 on the fleet of the reserved car 1 and motorcycle 2: the two lines
written. -/
theorem viewVehicles_pure_witness :
    (viewVehicles (RentalSystem.ofFleet [(Car 1).setAvailable false, Motorcycle 2])).2 =
      [.text "Vehicle ID: 1, Type: Car, Available: No\n",
        .text "Vehicle ID: 2, Type: Motorcycle, Available: Yes\n"] :=
  (viewVehicles_pure (RentalSystem.ofFleet [(Car 1).setAvailable false, Motorcycle 2])).2.1.trans
    (by decide)

end VehicleRental
